import Mathlib

/-!
Verification development for the EDI mapping generator's
constraint-extraction-and-reconciliation pipeline
(`pdf_constraint_extractor.py`, `flow_nestle/gap_analyzer.py`,
`flow_nestle/standard_loader.py`).

Python JSON values are modelled by the inductive type `J` below; Python
`json.loads` is modelled by a fuelled recursive-descent parser `loads`
over the JSON fragment actually produced and consumed by this program
(strings without escape sequences, non-negative integers, booleans,
null, arrays, objects).  Python dicts are modelled as insertion-ordered
association lists with last-occurrence-wins lookup.
-/

namespace Edi

/-- Model of a Python JSON value as returned by `json.loads`. -/
inductive J where
  | s : String → J
  | n : Nat → J
  | b : Bool → J
  | null : J
  | arr : List J → J
  | obj : List (String × J) → J
  deriving Inhabited

mutual

/-- Structural equality on JSON values (Python `==` on parsed values). -/
def J.beq : J → J → Bool
  | .s a, .s c => a == c
  | .n a, .n c => a == c
  | .b a, .b c => a == c
  | .null, .null => true
  | .arr a, .arr c => J.beqL a c
  | .obj a, .obj c => J.beqKV a c
  | _, _ => false

def J.beqL : List J → List J → Bool
  | [], [] => true
  | x :: xs, y :: ys => J.beq x y && J.beqL xs ys
  | _, _ => false

def J.beqKV : List (String × J) → List (String × J) → Bool
  | [], [] => true
  | (k, x) :: xs, (k2, y) :: ys => k == k2 && J.beq x y && J.beqKV xs ys
  | _, _ => false

end

instance : BEq J := ⟨J.beq⟩

theorem J.beq_iff_aux :
    ∀ m, ∀ a b : J, sizeOf a ≤ m → (J.beq a b = true ↔ a = b) := by
  intro m
  induction m with
  | zero =>
    intro a b h
    exfalso
    cases a <;> simp_all
  | succ m ih =>
    intro a b h
    cases a with
    | s x => cases b <;> simp [J.beq]
    | n x => cases b <;> simp [J.beq]
    | b x => cases b <;> simp [J.beq]
    | null => cases b <;> simp [J.beq]
    | arr l =>
      cases b with
      | s x => simp [J.beq]
      | n x => simp [J.beq]
      | b x => simp [J.beq]
      | null => simp [J.beq]
      | obj l2 => simp [J.beq]
      | arr l2 =>
        simp only [J.beq, J.arr.injEq]
        have hl : sizeOf l ≤ m := by simp at h; omega
        clear h
        induction l generalizing l2 with
        | nil => cases l2 <;> simp [J.beqL]
        | cons x xs ihx =>
          cases l2 with
          | nil => simp [J.beqL]
          | cons y ys =>
            have hx : sizeOf x ≤ m := by simp at hl; omega
            have hxs : sizeOf xs ≤ m := by simp at hl; omega
            simp [J.beqL, ih x y hx, ihx ys hxs]
    | obj l =>
      cases b with
      | s x => simp [J.beq]
      | n x => simp [J.beq]
      | b x => simp [J.beq]
      | null => simp [J.beq]
      | arr l2 => simp [J.beq]
      | obj l2 =>
        simp only [J.beq, J.obj.injEq]
        have hl : sizeOf l ≤ m := by simp at h; omega
        clear h
        induction l generalizing l2 with
        | nil => cases l2 <;> simp [J.beqKV]
        | cons x xs ihx =>
          cases l2 with
          | nil => simp [J.beqKV]
          | cons y ys =>
            obtain ⟨k, v⟩ := x
            obtain ⟨k2, v2⟩ := y
            have hv : sizeOf v ≤ m := by simp at hl; omega
            have hxs : sizeOf xs ≤ m := by simp at hl; omega
            simp [J.beqKV, ih v v2 hv, ihx ys hxs]

theorem J.beq_iff (a b : J) : J.beq a b = true ↔ a = b :=
  J.beq_iff_aux (sizeOf a) a b le_rfl

instance : DecidableEq J := fun a b =>
  decidable_of_iff (J.beq a b = true) (J.beq_iff a b)

instance : LawfulBEq J where
  eq_of_beq h := (J.beq_iff _ _).mp h
  rfl := (J.beq_iff _ _).mpr rfl

instance {ε α : Type} [DecidableEq ε] [DecidableEq α] :
    DecidableEq (Except ε α) := fun a b =>
  match a, b with
  | .ok x, .ok y =>
    if h : x = y then isTrue (by rw [h])
    else isFalse (by intro hh; cases hh; exact h rfl)
  | .error x, .error y =>
    if h : x = y then isTrue (by rw [h])
    else isFalse (by intro hh; cases hh; exact h rfl)
  | .ok _, .error _ => isFalse (by intro hh; cases hh)
  | .error _, .ok _ => isFalse (by intro hh; cases hh)

/-- Python truthiness (`bool(x)`) on JSON values. -/
def J.truthy : J → Bool
  | .s x => !x.isEmpty
  | .n x => x != 0
  | .b x => x
  | .null => false
  | .arr l => !l.isEmpty
  | .obj l => !l.isEmpty

/-- Is this value a Python dict? -/
def J.isObj : J → Bool
  | .obj _ => true
  | _ => false

/-- Is this value a Python list? -/
def J.isArr : J → Bool
  | .arr _ => true
  | _ => false

/-- Python `dict.get(k)` on a parsed JSON object: the value of the last
occurrence of the key (later duplicate keys overwrite earlier ones),
`none` when the receiver is not a dict or lacks the key.  (In Python a
non-dict receiver raises; callers in this development only apply it to
dicts, or model the raise separately.) -/
def J.get? : J → String → Option J
  | .obj kvs, k => kvs.reverse.lookup k
  | _, _ => none

/-- Python `dict.get(k, d)`. -/
def J.getD (j : J) (k : String) (d : J) : J := (j.get? k).getD d

/-! ### A model of `json.loads`

A fuelled recursive-descent parser for the JSON fragment used by the
program.  Escape sequences inside string literals and negative /
fractional / exponent numbers are not modelled: no input considered in
this development contains them (the serializer below never produces
them), and the parser rejects them outright. -/

/-- JSON whitespace (as skipped by Python's `json` scanner). -/
def wsChar (c : Char) : Bool := c = ' ' || c = '\t' || c = '\n' || c = '\r'

def skipWs : List Char → List Char
  | [] => []
  | c :: cs => if wsChar c then skipWs cs else c :: cs

/-- Parse the body of a string literal (after the opening quote) up to
the closing quote.  Unescaped control characters are rejected, as in
Python's strict mode; a backslash is rejected (escapes not modelled). -/
def strBody : List Char → Option (List Char × List Char)
  | [] => none
  | c :: cs =>
    if c = '"' then some ([], cs)
    else if c = '\\' || c.toNat < 32 then none
    else
      match strBody cs with
      | some (body, rest) => some (c :: body, rest)
      | none => none

def digitsToNat (ds : List Char) : Nat :=
  ds.foldl (fun a c => a * 10 + (c.toNat - 48)) 0

/-- Parse a non-negative decimal integer (maximal run of digits,
rejecting a leading zero followed by further digits, as Python does). -/
def parseNum (cs : List Char) : Option (Nat × List Char) :=
  match cs.takeWhile Char.isDigit, cs.dropWhile Char.isDigit with
  | [], _ => none
  | [d], rest => some (digitsToNat [d], rest)
  | d :: d2 :: ds, rest =>
    if d = '0' then none else some (digitsToNat (d :: d2 :: ds), rest)

mutual

/-- Parse one JSON value.  The `Nat` argument is fuel; every call site
supplies enough fuel for the whole input (see `loadsChars`). -/
def parseVal : Nat → List Char → Option (J × List Char)
  | 0, _ => none
  | Nat.succ f, cs =>
    match skipWs cs with
    | [] => none
    | '"' :: cs2 =>
      match strBody cs2 with
      | some (body, rest) => some (J.s (String.mk body), rest)
      | none => none
    | '[' :: cs2 =>
      match skipWs cs2 with
      | ']' :: rest => some (J.arr [], rest)
      | _ =>
        match parseArrItems f cs2 with
        | some (l, rest) => some (J.arr l, rest)
        | none => none
    | '{' :: cs2 =>
      match skipWs cs2 with
      | '}' :: rest => some (J.obj [], rest)
      | _ =>
        match parseObjItems f cs2 with
        | some (l, rest) => some (J.obj l, rest)
        | none => none
    | 't' :: cs2 =>
      if ['r', 'u', 'e'].isPrefixOf cs2 then some (J.b true, cs2.drop 3) else none
    | 'f' :: cs2 =>
      if ['a', 'l', 's', 'e'].isPrefixOf cs2 then some (J.b false, cs2.drop 4) else none
    | 'n' :: cs2 =>
      if ['u', 'l', 'l'].isPrefixOf cs2 then some (J.null, cs2.drop 3) else none
    | c :: cs2 =>
      if c.isDigit then
        match parseNum (c :: cs2) with
        | some (x, rest) => some (J.n x, rest)
        | none => none
      else none

/-- Parse the items of a non-empty array (after the opening bracket). -/
def parseArrItems : Nat → List Char → Option (List J × List Char)
  | 0, _ => none
  | Nat.succ f, cs =>
    match parseVal f cs with
    | none => none
    | some (v, rest) =>
      match skipWs rest with
      | ',' :: rest2 =>
        match parseArrItems f rest2 with
        | some (l, rest3) => some (v :: l, rest3)
        | none => none
      | ']' :: rest2 => some ([v], rest2)
      | _ => none

/-- Parse the members of a non-empty object (after the opening brace). -/
def parseObjItems : Nat → List Char → Option (List (String × J) × List Char)
  | 0, _ => none
  | Nat.succ f, cs =>
    match skipWs cs with
    | '"' :: cs2 =>
      match strBody cs2 with
      | some (key, rest) =>
        match skipWs rest with
        | ':' :: rest2 =>
          match parseVal f rest2 with
          | some (v, rest3) =>
            match skipWs rest3 with
            | ',' :: rest4 =>
              match parseObjItems f rest4 with
              | some (l, rest5) => some ((String.mk key, v) :: l, rest5)
              | none => none
            | '}' :: rest4 => some ([(String.mk key, v)], rest4)
            | _ => none
          | none => none
        | _ => none
      | none => none
    | _ => none

end

/-- `json.loads` on a character list: parse one value and require that
only whitespace remains.  `none` models a raised `JSONDecodeError`. -/
def loadsChars (cs : List Char) : Option J :=
  match parseVal (2 * cs.length + 2) cs with
  | some (v, rest) => if (skipWs rest).isEmpty then some v else none
  | none => none

/-- `json.loads` on a Python string. -/
def loads (s : String) : Option J := loadsChars s.data

/-! ### A model of `json.dumps` (default separators) -/

/-- Decimal digits of a natural number, most significant first; the
first argument is fuel (`x / 10 < x` once `10 ≤ x`, so `x + 1` steps
always suffice, see `natChars`). -/
def natCharsF : Nat → Nat → List Char
  | 0, _ => []
  | f + 1, x =>
    if x < 10 then [Char.ofNat (48 + x)]
    else natCharsF f (x / 10) ++ [Char.ofNat (48 + x % 10)]

/-- Decimal digits of a natural number, most significant first. -/
def natChars (x : Nat) : List Char := natCharsF (x + 1) x

mutual

/-- `json.dumps` with the default `", "` / `": "` separators, on the
escape-free fragment (no character of a dumped string requires
escaping; see `J.plain`). -/
def dumpsV : J → List Char
  | .s x => '"' :: x.data ++ ['"']
  | .n x => natChars x
  | .b true => ['t', 'r', 'u', 'e']
  | .b false => ['f', 'a', 'l', 's', 'e']
  | .null => ['n', 'u', 'l', 'l']
  | .arr l => '[' :: dumpsL l
  | .obj l => '{' :: dumpsKVs l

def dumpsL : List J → List Char
  | [] => [']']
  | [v] => dumpsV v ++ [']']
  | v :: rest => dumpsV v ++ ',' :: ' ' :: dumpsL rest

def dumpsKVs : List (String × J) → List Char
  | [] => ['}']
  | [(k, v)] => '"' :: k.data ++ '"' :: ':' :: ' ' :: dumpsV v ++ ['}']
  | (k, v) :: rest =>
    '"' :: k.data ++ '"' :: ':' :: ' ' :: dumpsV v ++ ',' :: ' ' :: dumpsKVs rest

end

/-- `json.dumps` producing a Python string. -/
def dumps (v : J) : String := String.mk (dumpsV v)

/-- A character that needs no escaping when dumped inside a JSON string
literal, and that keeps the surrounding decode pipeline simple:
printable ASCII, not a quote, backslash or backtick. -/
def plainChar (c : Char) : Bool :=
  32 ≤ c.toNat && c.toNat < 127 && c != '"' && c != '\\' && c != '`'

def plainStr (x : String) : Bool := x.data.all plainChar

mutual

/-- All strings (including object keys) of the value are `plainStr`. -/
def J.plain : J → Bool
  | .s x => plainStr x
  | .n _ => true
  | .b _ => true
  | .null => true
  | .arr l => J.plainL l
  | .obj l => J.plainKV l

def J.plainL : List J → Bool
  | [] => true
  | v :: rest => J.plain v && J.plainL rest

def J.plainKV : List (String × J) → Bool
  | [] => true
  | (k, v) :: rest => plainStr k && J.plain v && J.plainKV rest

end

mutual

/-- Fuel sufficient to parse the dump of a value (see `parse_dumps`). -/
def J.w : J → Nat
  | .arr l => 1 + J.wL l
  | .obj l => 1 + J.wKV l
  | _ => 1

def J.wL : List J → Nat
  | [] => 1
  | v :: rest => 1 + J.w v + J.wL rest

def J.wKV : List (String × J) → Nat
  | [] => 1
  | (_, v) :: rest => 1 + J.w v + J.wKV rest

end

/-! ### Python string primitives used by the decode pipeline -/

/-- Python whitespace for `str.strip` / regex `\s` (ASCII fragment). -/
def pySpace (c : Char) : Bool := wsChar c || c = '\x0b' || c = '\x0c'

/-- Python `str.strip()`. -/
def pyStrip (cs : List Char) : List Char :=
  ((cs.dropWhile pySpace).reverse.dropWhile pySpace).reverse

/-- Python `str.find(c)` for a single character: first index, `none`
modelling `-1`. -/
def strFind : List Char → Char → Option Nat
  | [], _ => none
  | x :: rest, c => if x = c then some 0 else (strFind rest c).map (· + 1)

/-- Python `str.rfind(c)` for a single character: last index. -/
def strRFind : List Char → Char → Option Nat
  | [], _ => none
  | x :: rest, c =>
    match strRFind rest c with
    | some i => some (i + 1)
    | none => if x = c then some 0 else none

/-- First index at which `needle` occurs as a contiguous substring. -/
def subIndex (needle : List Char) : List Char → Option Nat
  | [] => if needle.isEmpty then some 0 else none
  | c :: rest =>
    if needle.isPrefixOf (c :: rest) then some 0
    else (subIndex needle rest).map (· + 1)

/-- Python `needle in hay` for strings. -/
def strContains (needle hay : List Char) : Bool := (subIndex needle hay).isSome

/-- Python slice `cs[a : e+1]`. -/
def sliceFromTo (cs : List Char) (a e : Nat) : List Char := (cs.take (e + 1)).drop a

/-- `re.search` of the fence pattern, tried at one start position:
after a literal triple backtick consume an optional `json`, then a
maximal whitespace run, and capture lazily up to the next triple
backtick. -/
def tryFenceAt (cs : List Char) : Option (List Char) :=
  if "```".data.isPrefixOf cs then
    let r1 := cs.drop 3
    let r2 := if "json".data.isPrefixOf r1 then r1.drop 4 else r1
    let r3 := r2.dropWhile pySpace
    match subIndex "```".data r3 with
    | some i => some (r3.take i)
    | none => none
  else none

/-- Leftmost match of the code-fence pattern
`(three backticks)(json)?\s*\n?(lazy capture)(three backticks)`,
returning the captured group. -/
def findFence : List Char → Option (List Char)
  | [] => none
  | c :: rest =>
    match tryFenceAt (c :: rest) with
    | some cap => some cap
    | none => findFence rest

/-! ### `PdfConstraintExtractor._clean_ai_response` -/

/-- The bracket-slicing second half of `_clean_ai_response`: locate the
outermost JSON structure, preferring an array over an object when the
array's opening bracket comes first. -/
def cleanBrackets (cleaned : List Char) : List Char :=
  let sa := strFind cleaned '['
  let so := strFind cleaned '{'
  if sa.isSome && (so.isNone || decide (sa.getD 0 < so.getD 0)) then
    match strRFind cleaned ']', sa with
    | some e, some a => if a < e then sliceFromTo cleaned a e else cleaned
    | _, _ => cleaned
  else if so.isSome then
    match strRFind cleaned '}', so with
    | some e, some o => if o < e then sliceFromTo cleaned o e else cleaned
    | _, _ => cleaned
  else cleaned

/-- `PdfConstraintExtractor._clean_ai_response`: strip, remove a
markdown code fence when present, then slice to the outermost JSON
structure. -/
def cleanAiResponse (resp : List Char) : List Char :=
  let cleaned := pyStrip resp
  let cleaned :=
    if strContains "```".data cleaned then
      match findFence cleaned with
      | some cap => pyStrip cap
      | none => cleaned
    else cleaned
  cleanBrackets cleaned

/-! ### `PdfConstraintExtractor._salvage_partial_json` -/

/-- One iteration of salvage strategy 1 at position `p`: if the
character there is a closing brace, close the array right after it and
re-attempt a parse, succeeding only on a JSON list. -/
def tryClose (cleaned : List Char) (p : Nat) : Option (List J) :=
  if cleaned.get? p = some '}' then
    match loadsChars (cleaned.take (p + 1) ++ [']']) with
    | some (J.arr l) => some l
    | _ => none
  else none

/-- Salvage strategy 1's scan `for end_pos in range(len(cleaned)-1,
100, -1)`: try each position from `p` down to 101. -/
def scanFrom (cleaned : List Char) : Nat → Option (List J)
  | 0 => none
  | p + 1 =>
    if p + 1 ≤ 100 then none
    else
      match tryClose cleaned (p + 1) with
      | some l => some l
      | none => scanFrom cleaned p

/-- Greedy consumption of the nested-bracket regex group used for the
`fields` array (`[^][]` runs alternated with bracketed groups, two
levels deep), returning the characters consumed and the rest.
Together with `matchSegObjAt` below this is a good-faith procedural
model of the Python regex in `_salvage_partial_json` (strategy 2); no
theorem in this development depends on its exact behaviour. -/
def eatBracketGroup : Nat → Nat → List Char → Option (List Char × List Char)
  | 0, _, _ => none
  | Nat.succ _, 0, _ => none
  | Nat.succ fu, Nat.succ d, cs =>
    let run := cs.takeWhile (fun c => c != '[' && c != ']')
    let rest := cs.drop run.length
    match rest with
    | ']' :: _ => some (run, rest)
    | '[' :: cs2 =>
      match eatBracketGroup fu d cs2 with
      | some (inner, rest2) =>
        match rest2 with
        | ']' :: rest3 =>
          match eatBracketGroup fu (Nat.succ d) rest3 with
          | some (tailRun, rest4) =>
            some (run ++ '[' :: inner ++ ']' :: tailRun, rest4)
          | none => none
        | _ => none
      | none => none
    | _ => some (run, rest)

/-- Model of one attempted match of the strategy-2 regex at the start
of `cs`: an object whose brace-free prefix contains a quoted `segment`
key with a non-empty string value, later a `fields` key with a
bracketed array, then a closing brace.  Returns the matched text and
the rest of the input. -/
def matchSegObjAt (cs : List Char) : Option (List Char × List Char) :=
  match cs with
  | '{' :: _ => do
    let i1 ← subIndex "\"segment\"".data cs
    let pre := cs.take i1
    if pre.any (fun c => c = '}' || (c = '{' && pre.head? != some c)) then none
    let r1 := cs.drop (i1 + 9)
    let r1 := r1.dropWhile pySpace
    let r2 ← if r1.head? = some ':' then some (r1.drop 1) else none
    let r2 := r2.dropWhile pySpace
    let r3 ← if r2.head? = some '"' then some (r2.drop 1) else none
    let v := r3.takeWhile (fun c => c != '"')
    if v.isEmpty then none
    let r4 := r3.drop (v.length + 1)
    let i2 ← subIndex "\"fields\"".data r4
    if (r4.take i2).any (fun c => c = '{' || c = '}') then none
    let r5 := (r4.drop (i2 + 8)).dropWhile pySpace
    let r6 ← if r5.head? = some ':' then some (r5.drop 1) else none
    let r6 := r6.dropWhile pySpace
    let r7 ← if r6.head? = some '[' then some (r6.drop 1) else none
    let (_, r8) ← eatBracketGroup (r7.length + 1) 2 r7
    let r9 ← if r8.head? = some ']' then some (r8.drop 1) else none
    let post := r9.takeWhile (fun c => c != '{' && c != '}')
    let r10 := r9.drop post.length
    let rest ← if r10.head? = some '}' then some (r10.drop 1) else none
    let len := cs.length - rest.length
    some (cs.take len, rest)
  | _ => none

/-- `re.findall` of the strategy-2 pattern: non-overlapping leftmost
matches, scanned left to right.  The first argument is fuel; every
recursive call is on a strictly shorter list, so `cs.length + 1` steps
always suffice (see `findAllSegObjs`). -/
def findAllSegObjsF : Nat → List Char → List (List Char)
  | 0, _ => []
  | _ + 1, [] => []
  | f + 1, c :: rest =>
    match matchSegObjAt (c :: rest) with
    | some (m, after) =>
      if after.length < rest.length + 1 then m :: findAllSegObjsF f after
      else m :: findAllSegObjsF f rest
    | none => findAllSegObjsF f rest

/-- `re.findall` of the strategy-2 pattern. -/
def findAllSegObjs (cs : List Char) : List (List Char) :=
  findAllSegObjsF (cs.length + 1) cs

/-- Strategy 2 of `_salvage_partial_json`: regex-extract individual
complete segment-shaped objects, keeping those that parse to a dict
with a `segment` key. -/
def regexSalvage (cleaned : List Char) : List J :=
  (findAllSegObjs cleaned).foldl
    (fun acc m =>
      match loadsChars m with
      | some (J.obj kvs) =>
        if kvs.any (fun kv => kv.1 = "segment") then acc ++ [J.obj kvs] else acc
      | _ => acc)
    []

/-- `PdfConstraintExtractor._salvage_partial_json`. -/
def salvagePartialJson (resp : List Char) : List J :=
  let cleaned := cleanAiResponse resp
  let viaScan :=
    if cleaned.head? = some '[' then scanFrom cleaned (cleaned.length - 1)
    else none
  match viaScan with
  | some l => l
  | none => regexSalvage cleaned

/-! ### `PdfConstraintExtractor._parse_json_list` / `_parse_json` -/

/-- Wrapper-key extraction used by `_parse_json_list` when the response
parsed to a dict. -/
def objExtract (kvs : List (String × J)) : List J :=
  match (J.obj kvs).get? "segments" with
  | some (J.arr l) => l
  | _ =>
    match (J.obj kvs).get? "mandatory_segments" with
    | some (J.arr l) => l
    | _ =>
      match (J.obj kvs).get? "data" with
      | some (J.arr l) => l
      | _ => []

/-- `PdfConstraintExtractor._parse_json_list`: clean and parse the
response; unwrap a dict through the recognized wrapper keys; salvage on
a decode error; return `[]` when everything fails. -/
def parseJsonList (resp : String) : List J :=
  match loadsChars (cleanAiResponse resp.data) with
  | some (J.arr l) => l
  | some (J.obj kvs) => objExtract kvs
  | some _ => []
  | none => salvagePartialJson resp.data

/-- `PdfConstraintExtractor._parse_json`: like `_parse_json_list` but
returning the parsed value itself, wrapping any salvage result under a
`segments` key. -/
def parseJson (resp : String) : J :=
  match loadsChars (cleanAiResponse resp.data) with
  | some v => v
  | none => J.obj [("segments", J.arr (salvagePartialJson resp.data))]

/-! ### Python helpers shared by the analyzer and the extractor -/

/-- Python `str.upper()` (ASCII case mapping; the program's data is
ASCII). -/
def pyUpper (x : String) : String := String.mk (x.data.map Char.toUpper)

/-- Python `str.strip()` on a `String`. -/
def pyStripStr (x : String) : String := String.mk (pyStrip x.data)

/-- A JSON value used where Python requires a `str` (`.strip()` /
`.upper()` receivers); an error models the `AttributeError` Python
would raise. -/
def asStr : J → Except String String
  | .s x => .ok x
  | _ => .error "AttributeError"

/-- Python `str(x)`.  Exact on the primitive values that actually occur;
the rendering of lists/dicts is deliberately loose (no theorem depends
on it). -/
def pyStr : J → String
  | .s x => x
  | .n x => String.mk (natChars x)
  | .b true => "True"
  | .b false => "False"
  | .null => "None"
  | .arr _ => "\x7b...\x7d"
  | .obj _ => "\x7b...\x7d"

/-- Python `d.get(k, default)` where `d` must be a dict; an error
models the `AttributeError` raised on a non-dict receiver. -/
def jGetD (j : J) (k : String) (d : J) : Except String J :=
  match j with
  | .obj kvs => .ok ((J.obj kvs).getD k d)
  | _ => .error "AttributeError"

/-- Python iteration `for x in j`: list elements; characters of a
string; keys of a dict; error otherwise (`TypeError`). -/
def jIter : J → Except String (List J)
  | .arr l => .ok l
  | .s x => .ok (x.data.map (fun c => J.s (String.mk [c])))
  | .obj kvs => .ok (kvs.map (fun kv => J.s kv.1))
  | _ => .error "TypeError"

/-- Insertion-ordered dict insertion: replace in place when the key
exists, append otherwise (CPython dict semantics; keys are unique by
construction, so replacing the first occurrence is replacement). -/
def dictInsert [BEq α] : List (α × β) → α → β → List (α × β)
  | [], k, v => [(k, v)]
  | p :: rest, k, v =>
    if p.1 == k then (k, v) :: rest else p :: dictInsert rest k v

/-- Dict lookup (keys are unique by construction through
`dictInsert`). -/
def dictGet? [BEq α] (d : List (α × β)) (k : α) : Option β :=
  (d.find? (fun kv => kv.1 == k)).map (·.2)

/-- Python `str.split(sep)` (non-empty separator), fuelled. -/
def pySplitF : Nat → List Char → List Char → List (List Char)
  | 0, _, cs => [cs]
  | Nat.succ fu, sep, cs =>
    match subIndex sep cs with
    | none => [cs]
    | some i => cs.take i :: pySplitF fu sep (cs.drop (i + sep.length))

def pySplit (sep cs : List Char) : List (List Char) :=
  pySplitF (cs.length + 1) sep cs

/-- `l[i:i+k]` slices for `i in range(0, len(l), k)`; the `Nat`
argument after `k` is fuel, with `l.length + 1` always sufficient
(see `chunksOfN`). -/
def chunksOfNF (k : Nat) : Nat → List α → List (List α)
  | 0, _ => []
  | _ + 1, [] => []
  | f + 1, c :: rest =>
    if k = 0 then []
    else (c :: rest).take k :: chunksOfNF k f ((c :: rest).drop k)

/-- `l[i:i+k]` slices for `i in range(0, len(l), k)`. -/
def chunksOfN (k : Nat) (l : List α) : List (List α) :=
  chunksOfNF k (l.length + 1) l

/-! ### Data model: standard mappings and ERP fields

`StandardLoader.load` builds these records from the mapping Excel
sheet, with every cell passed through `str(...).strip()`; fields are
therefore plain strings. -/

structure Std where
  x12_segment : String
  x12_element : String
  description : String
  sap_segment : String
  sap_field : String
  mapping_rule : String
  notes : String
  deriving DecidableEq, Inhabited

/-- One SAP IDoc ERP field as produced by `ErpLoader.load` (only the
keys read by `GapAnalyzer.analyze`). -/
structure Erp where
  sap_segment : String
  sap_segment_desc : String
  sap_field : String
  sap_field_desc : String
  sap_data_type : String
  sap_external_length : String
  deriving DecidableEq, Inhabited

/-- A `pdf_lookup` entry: element info from the PDF extraction. -/
structure PdfElem where
  description : J
  status : J
  values : J
  deriving DecidableEq, Inhabited

/-- A `pdf_seg_lookup` entry. -/
structure PdfSeg where
  description : J
  status : J
  deriving DecidableEq, Inhabited

/-- `GapAnalyzer._build_pdf_index`: build `(segment, element_id) →
element info` and `segment → segment info` lookups from the extraction
output, normalizing element ids (upper-case, prepending the segment
code to a bare index of length at most 2 not containing it). -/
def buildPdfIndex (pdfSegments : List J) :
    Except String
      (List ((String × String) × PdfElem) × List (String × PdfSeg)) :=
  pdfSegments.foldlM
    (fun acc seg => do
      let segJ ← jGetD seg "segment" (J.s "")
      let segS ← asStr segJ
      let seg_code := pyUpper (pyStripStr segS)
      if seg_code.isEmpty then pure acc
      else do
        let d ← jGetD seg "description" (J.s "")
        let st ← jGetD seg "status" (J.s "")
        let segLookup := dictInsert acc.2 seg_code ⟨d, st⟩
        let fieldsJ ← jGetD seg "fields" (J.arr [])
        let fieldList ← jIter fieldsJ
        let lookup ← fieldList.foldlM
          (fun lk field => do
            let idJ ← jGetD field "id" (J.s "")
            let elem_id := pyUpper (pyStripStr (pyStr idJ))
            if elem_id.isEmpty then pure lk
            else do
              let elem_id :=
                if elem_id.length ≤ 2 && !strContains seg_code.data elem_id.data
                then seg_code ++ elem_id
                else elem_id
              let fd ← jGetD field "description" (J.s "")
              let fs ← jGetD field "status" (J.s "")
              let fv ← jGetD field "values" (J.arr [])
              pure (dictInsert lk (seg_code, elem_id) ⟨fd, fs, fv⟩))
          acc.1
        pure (lookup, segLookup))
    ([], [])

/-! ### `GapAnalyzer.analyze`, phase 1: per-field rows -/

/-- `GapAnalyzer.GRID_HEADERS`. -/
def GRID_HEADERS : List J :=
  ["SAP Segment", "SAP Segment Desc", "SAP Field", "SAP Field Desc",
   "SAP Data Type", "SAP Length", "X12 Segment", "X12 Element",
   "X12 Element Desc", "Mapping Rule", "PDF Seg Status",
   "PDF Elem Status", "PDF Values", "Mapping Source", "Confidence",
   "Notes"].map J.s

/-- `GapAnalyzer._format_values`. -/
def formatValues (values : J) : String :=
  if !values.truthy then ""
  else
    match values with
    | .arr l => String.intercalate ", " (l.map pyStr)
    | v => pyStr v

/-- An entry of `flaggable_rows`. -/
structure FlagRowInfo where
  row_idx : Nat
  mapping_rule : String
  pdf_values : String
  x12_elem : String
  deriving DecidableEq, Inhabited

/-- Accumulator of the per-field loop of `analyze`. -/
structure Acc where
  grid : List (List J)
  unmapped_fields : List Erp
  unmapped_indices : List Nat
  flaggable_rows : List FlagRowInfo
  deriving Inhabited

/-- One iteration of the per-field loop of `analyze`: reverse standard
lookup, PDF cross-reference, row construction. -/
def stepField (std : String → String → List Std)
    (pdfLookup : List ((String × String) × PdfElem))
    (pdfSegLookup : List (String × PdfSeg)) (acc : Acc) (erp : Erp) : Acc :=
  match std erp.sap_segment erp.sap_field with
  | stdm :: _ =>
    let x12_seg := stdm.x12_segment
    let x12_elem := stdm.x12_element
    let pdf_elem := dictGet? pdfLookup (x12_seg, x12_elem)
    let pdf_seg_info := dictGet? pdfSegLookup x12_seg
    match pdf_elem with
    | some pe =>
      let pdf_values := formatValues pe.values
      let row : List J :=
        [J.s erp.sap_segment, J.s erp.sap_segment_desc, J.s erp.sap_field,
         J.s erp.sap_field_desc, J.s erp.sap_data_type,
         J.s erp.sap_external_length, J.s x12_seg, J.s x12_elem,
         (if pe.description.truthy then pe.description else J.s stdm.description),
         J.s stdm.mapping_rule,
         ((pdf_seg_info.map PdfSeg.status).getD (J.s "")),
         pe.status, J.s pdf_values, J.s "STANDARD+PDF", J.s "HIGH",
         J.s stdm.notes]
      { grid := acc.grid ++ [row]
        unmapped_fields := acc.unmapped_fields
        unmapped_indices := acc.unmapped_indices
        flaggable_rows :=
          if !pdf_values.isEmpty then
            acc.flaggable_rows ++
              [⟨acc.grid.length, stdm.mapping_rule, pdf_values, x12_elem⟩]
          else acc.flaggable_rows }
    | none =>
      let row : List J :=
        [J.s erp.sap_segment, J.s erp.sap_segment_desc, J.s erp.sap_field,
         J.s erp.sap_field_desc, J.s erp.sap_data_type,
         J.s erp.sap_external_length, J.s x12_seg, J.s x12_elem,
         J.s stdm.description, J.s stdm.mapping_rule, J.s "", J.s "",
         J.s "", J.s "STANDARD", J.s "MEDIUM", J.s stdm.notes]
      { acc with grid := acc.grid ++ [row] }
  | [] =>
    let row : List J :=
      [J.s erp.sap_segment, J.s erp.sap_segment_desc, J.s erp.sap_field,
       J.s erp.sap_field_desc, J.s erp.sap_data_type,
       J.s erp.sap_external_length, J.s "", J.s "", J.s "", J.s "",
       J.s "", J.s "", J.s "", J.s "UNMAPPED", J.s "", J.s ""]
    { grid := acc.grid ++ [row]
      unmapped_fields := acc.unmapped_fields ++ [erp]
      unmapped_indices := acc.unmapped_indices ++ [acc.grid.length]
      flaggable_rows := acc.flaggable_rows }

/-- The full per-field loop (header row first). -/
def phaseA (std : String → String → List Std)
    (pdfLookup : List ((String × String) × PdfElem))
    (pdfSegLookup : List (String × PdfSeg)) (erps : List Erp) : Acc :=
  erps.foldl (stepField std pdfLookup pdfSegLookup)
    ⟨[GRID_HEADERS], [], [], []⟩

/-! ### `GapAnalyzer._parse_ai_matches` and `_batch_ai_match` -/

/-- The key `(item.get("sap_segment", ""), item.get("sap_field", ""))`
under which `_parse_ai_matches` indexes a reply item. -/
def keyOfItem (it : J) : J × J :=
  (it.getD "sap_segment" (J.s ""), it.getD "sap_field" (J.s ""))

/-- The alignment core of `_parse_ai_matches` on the parsed reply:
index the reply items by `(sap_segment, sap_field)` (a later duplicate
key overwrites an earlier one, as in a Python dict) and give each batch
field the item at its key.  A non-list reply, or any non-dict item
(which would raise inside the `try`), yields all-`none`. -/
def parseAiMatchesCore (parsed : J) (batch : List Erp) : List (Option J) :=
  match parsed with
  | .arr items =>
    if items.all J.isObj then
      let mmap : List ((J × J) × J) :=
        items.foldl (fun m it => dictInsert m (keyOfItem it) it) []
      batch.map (fun f => dictGet? mmap (J.s f.sap_segment, J.s f.sap_field))
    else batch.map (fun _ => none)
  | _ => batch.map (fun _ => none)

/-- `GapAnalyzer._parse_ai_matches`: fence-split, bracket-slice, parse
and align; any failure yields all-`none`. -/
def parseAiMatches (response : String) (batch : List Erp) : List (Option J) :=
  let cleaned := response.data
  let cleaned :=
    if strContains "```".data cleaned then
      if strContains "```json".data cleaned then
        pyStrip
          (((pySplit "```".data
              ((pySplit "```json".data cleaned).getLastD []))).headD [])
      else
        pyStrip
          ((pySplit "```".data ((pySplit "```".data cleaned).getD 1 [])).headD [])
    else cleaned
  let cleaned :=
    match strFind cleaned '[', strRFind cleaned ']' with
    | some a, some e => sliceFromTo cleaned a e
    | _, _ => cleaned
  match loadsChars cleaned with
  | some v => parseAiMatchesCore v batch
  | none => batch.map (fun _ => none)

/-- `GapAnalyzer._batch_ai_match`: split the unmapped fields into
batches of 30; each batch's completion is modelled as a function of the
batch index (`none` models a raised backend call, which the worker
catches into all-`none`); results are reassembled by batch index, so
completion order is irrelevant. -/
def batchAiMatch (replies : Nat → Option String) (unmapped : List Erp) :
    List (Option J) :=
  ((chunksOfN 30 unmapped).enum).flatMap
    (fun p =>
      match replies p.1 with
      | some resp => parseAiMatches resp p.2
      | none => p.2.map (fun _ => none))

/-! ### `GapAnalyzer.analyze`, phase 3: AI match write-back -/

/-- The in-place update of columns 6..15 of one grid row from an
accepted AI match. -/
def updateRow (pdfLookup : List ((String × String) × PdfElem))
    (pdfSegLookup : List (String × PdfSeg)) (row : List J) (m : J) :
    List J :=
  let x12_segment := m.getD "x12_segment" (J.s "")
  let x12_element := m.getD "x12_element" (J.s "")
  let pdf_elem :=
    match x12_segment, x12_element with
    | .s a, .s e => dictGet? pdfLookup (a, e)
    | _, _ => none
  let pdf_seg_info :=
    match x12_segment with
    | .s a => dictGet? pdfSegLookup a
    | _ => none
  ((((((((((row.set 6 x12_segment).set 7 x12_element).set 8
      (m.getD "x12_description" (J.s ""))).set 9
      (m.getD "mapping_rule" (J.s "Semantic match"))).set 10
      ((pdf_seg_info.map PdfSeg.status).getD (J.s ""))).set 11
      ((pdf_elem.map PdfElem.status).getD (J.s ""))).set 12
      (J.s (formatValues ((pdf_elem.map PdfElem.values).getD (J.arr []))))).set 13
      (J.s "AI_MATCH")).set 14
      (m.getD "confidence" (J.s "LOW"))).set 15
      (m.getD "reason" (J.s "")))

/-- Does the write-back accept this reply entry?
(`if match and match.get("x12_element")`) -/
def acceptMatch : Option J → Bool
  | none => false
  | some m => m.truthy && ((m.get? "x12_element").map J.truthy).getD false

/-- The write-back loop `for idx, match in zip(unmapped_indices,
ai_matches)`. -/
def applyMatches (pdfLookup : List ((String × String) × PdfElem))
    (pdfSegLookup : List (String × PdfSeg)) :
    List (List J) → List (Nat × Option J) → List (List J)
  | grid, [] => grid
  | grid, p :: rest =>
    applyMatches pdfLookup pdfSegLookup
      (if acceptMatch p.2 then
        match p.2, grid[p.1]? with
        | some m, some row =>
          grid.set p.1 (updateRow pdfLookup pdfSegLookup row m)
        | _, _ => grid
      else grid)
      rest

/-! ### `GapAnalyzer._flag_value_discrepancies` -/

/-- `bool(item.get(k))` on a dict item. -/
def truthyGet (it : J) (k : String) : Bool :=
  ((it.get? k).map J.truthy).getD false

/-- Does some reply item make the result loop raise?  (A non-dict item
raises `AttributeError` on `.get`; a flag-worthy item without a
`row_idx` key raises `KeyError`.)  The surrounding `try` then turns the
whole result into the empty dict. -/
def flagItemsBad (items : List J) : Bool :=
  items.any
    (fun it =>
      !it.isObj ||
        (truthyGet it "flagged" && truthyGet it "reason" &&
          (it.get? "row_idx").isNone))

/-- One iteration of the result loop of `_flag_value_discrepancies`:
`results[item["row_idx"]] = item["reason"]` for an item with truthy
`flagged` and truthy `reason`. -/
def flagStep (acc : List (J × J)) (it : J) : List (J × J) :=
  if truthyGet it "flagged" && truthyGet it "reason" then
    match it.get? "row_idx", it.get? "reason" with
    | some ridx, some reason => dictInsert acc ridx reason
    | _, _ => acc
  else acc

/-- The result loop of `_flag_value_discrepancies` on the parsed reply;
the row index is taken from the reply as-is.  A non-list reply yields
the empty dict. -/
def flagCore (parsed : J) : List (J × J) :=
  match parsed with
  | .arr items =>
    if flagItemsBad items then []
    else items.foldl flagStep []
  | _ => []

/-- Reply parsing of `_flag_value_discrepancies` (strip, fence regex,
bracket slice, parse). -/
def parseFlagReply (response : String) : List (J × J) :=
  let cleaned := pyStrip response.data
  let cleaned :=
    if strContains "```".data cleaned then
      match findFence cleaned with
      | some cap => pyStrip cap
      | none => cleaned
    else cleaned
  let cleaned :=
    match strFind cleaned '[', strRFind cleaned ']' with
    | some a, some e => sliceFromTo cleaned a e
    | _, _ => cleaned
  match loadsChars cleaned with
  | some v => flagCore v
  | none => []

/-- `GapAnalyzer._flag_value_discrepancies`: empty input or a raised
backend call (`reply = none`) produce no flags. -/
def flagValueDiscrepancies (flaggable : List FlagRowInfo)
    (reply : Option String) : List (J × J) :=
  if flaggable.isEmpty then []
  else
    match reply with
    | none => []
    | some resp => parseFlagReply resp

/-! ### `GapAnalyzer.analyze`, assembled -/

/-- The text-generation backend as seen by `analyze`: whether an
`ai_client` is present, one completion per semantic-match batch, and
one completion for the flagging request (`none` models a raised
call). -/
structure AiModel where
  present : Bool
  matchReplies : Nat → Option String
  flagReply : Option String

structure AnalyzeResult where
  grid : List (List J)
  flags : List (J × J)

/-- `GapAnalyzer.analyze`. -/
def analyze (std : String → String → List Std)
    (pdfLookup : List ((String × String) × PdfElem))
    (pdfSegLookup : List (String × PdfSeg)) (ai : AiModel)
    (erps : List Erp) : AnalyzeResult :=
  let acc := phaseA std pdfLookup pdfSegLookup erps
  let grid :=
    if !acc.unmapped_fields.isEmpty && ai.present && !pdfLookup.isEmpty then
      applyMatches pdfLookup pdfSegLookup acc.grid
        (acc.unmapped_indices.zip (batchAiMatch ai.matchReplies acc.unmapped_fields))
    else acc.grid
  let flags :=
    if !acc.flaggable_rows.isEmpty && ai.present then
      (flagValueDiscrepancies acc.flaggable_rows ai.flagReply).foldl
        (fun fl p =>
          dictInsert fl p.1 (J.obj [("col", J.n 9), ("reason", p.2)]))
        []
    else []
  ⟨grid, flags⟩

/-! ### `PdfConstraintExtractor`: chunking and merge -/

/-- A `--- Page N ---` marker at the head of the input: its length. -/
def markerAt (cs : List Char) : Option Nat :=
  if "--- Page ".data.isPrefixOf cs then
    let r := cs.drop 9
    let ds := r.takeWhile Char.isDigit
    if ds.isEmpty then none
    else if " ---".data.isPrefixOf (r.drop ds.length) then
      some (9 + ds.length + 4)
    else none
  else none

/-- Index and length of the leftmost page marker. -/
def markerIndex : List Char → Option (Nat × Nat)
  | [] => none
  | c :: rest =>
    match markerAt (c :: rest) with
    | some len => some (0, len)
    | none => (markerIndex rest).map (fun p => (p.1 + 1, p.2))

/-- `re.split` on the page-marker pattern, fuelled. -/
def splitByMarkerF : Nat → List Char → List (List Char)
  | 0, cs => [cs]
  | Nat.succ fu, cs =>
    match markerIndex cs with
    | none => [cs]
    | some (i, len) => cs.take i :: splitByMarkerF fu (cs.drop (i + len))

/-- `PdfConstraintExtractor._split_into_chunks`. -/
def splitIntoChunks (text : String) : List String :=
  let pages :=
    ((splitByMarkerF (text.data.length + 1) text.data).map pyStrip).filter
      (fun p => !p.isEmpty)
  if pages.length ≤ 1 then
    (chunksOfN 8000 text.data).map String.mk
  else
    let chunks :=
      (chunksOfN 8 pages).map
        (fun grp => String.mk ((grp.intersperse "\n\n".data).flatten))
    let chunks := chunks.filter (fun c => !(pyStrip c.data).isEmpty)
    if chunks.isEmpty then [text] else chunks

/-- One merged entry of `all_segments`. -/
structure MSeg where
  description : J
  status : J
  fields : List J
  deriving Inhabited

/-- The merge loop's upper-cased id of one already-stored field
(`f.get("id", "").upper()`). -/
def mergeIdOf (f : J) : Except String String := do
  let idJ ← jGetD f "id" (J.s "")
  let idS ← asStr idJ
  pure (pyUpper idS)

/-- One step of the merge loop's field-appending fold: append the
field when its stripped upper-cased id is non-empty and new. -/
def mergeFieldStep (p : List J × List String) (field : J) :
    Except String (List J × List String) := do
  let idJ ← jGetD field "id" (J.s "")
  let idS ← asStr idJ
  let fid := pyUpper (pyStripStr idS)
  if !fid.isEmpty && !p.2.contains fid then
    pure (p.1 ++ [field], p.2 ++ [fid])
  else pure p

/-- One step of the merge loop of `extract_all_segments` for one raw
segment object: create the map entry on first sight, then append only
fields whose upper-cased id is new. -/
def mergeStep (acc : List (String × MSeg)) (seg : J) :
    Except String (List (String × MSeg)) := do
  let codeJ ← jGetD seg "segment" (J.s "")
  let codeS ← asStr codeJ
  let code := pyUpper (pyStripStr codeS)
  if code.isEmpty then pure acc
  else do
    let acc ←
      if acc.any (fun kv => kv.1 == code) then pure acc
      else do
        let d ← jGetD seg "description" (J.s "")
        let st ← jGetD seg "status" (J.s "")
        pure (acc ++ [(code, ⟨d, st, []⟩)])
    let entry := (dictGet? acc code).getD default
    let ids0 ← entry.fields.mapM mergeIdOf
    let fieldsJ ← jGetD seg "fields" (J.arr [])
    let fl ← jIter fieldsJ
    let upd ← fl.foldlM mergeFieldStep (entry.fields, ids0)
    pure (dictInsert acc code { entry with fields := upd.1 })

/-- The merge of all chunks' raw segment lists
(`for segments in chunk_results: for seg in segments: ...`),
rendered back to the raw dict shape of `all_segments.values()`. -/
def mergeChunks (chunkResults : List (List J)) : Except String (List J) := do
  let m ← chunkResults.flatten.foldlM mergeStep []
  pure
    (m.map (fun kv =>
      J.obj
        [("segment", J.s kv.1), ("description", kv.2.description),
         ("status", kv.2.status), ("fields", J.arr kv.2.fields)]))

/-- One chunk's contribution (`_process_chunk`): the backend call's
reply parsed as a JSON list, or nothing when the call raises (`none`),
which the worker catches into an empty contribution. -/
def chunkSegs (oracle : Nat → String → Option String) (p : Nat × String) :
    List J :=
  match oracle p.1 p.2 with
  | none => []
  | some resp => parseJsonList resp

/-- `PdfConstraintExtractor.extract_all_segments`.  The document reader
outcome is the first argument (`.error` models a raised read, which the
method catches into an empty result).  The completion backend is
modelled as a function of the chunk index and chunk text (the prompt
adds no further information). -/
def extractAllSegments (docText : Except String String)
    (oracle : Nat → String → Option String) : Except String (List J) :=
  match docText with
  | .error _ => .ok []
  | .ok txt =>
    mergeChunks ((splitIntoChunks txt).enum.map (chunkSegs oracle))

/-! ### Closed forms of the per-field loop (specification helpers) -/

/-- The row `stepField` emits for one ERP field. -/
def rowOf (std : String → String → List Std)
    (pdfLookup : List ((String × String) × PdfElem))
    (pdfSegLookup : List (String × PdfSeg)) (erp : Erp) : List J :=
  match std erp.sap_segment erp.sap_field with
  | stdm :: _ =>
    match dictGet? pdfLookup (stdm.x12_segment, stdm.x12_element) with
    | some pe =>
      [J.s erp.sap_segment, J.s erp.sap_segment_desc, J.s erp.sap_field,
       J.s erp.sap_field_desc, J.s erp.sap_data_type,
       J.s erp.sap_external_length, J.s stdm.x12_segment,
       J.s stdm.x12_element,
       (if pe.description.truthy then pe.description else J.s stdm.description),
       J.s stdm.mapping_rule,
       (((dictGet? pdfSegLookup stdm.x12_segment).map PdfSeg.status).getD (J.s "")),
       pe.status, J.s (formatValues pe.values), J.s "STANDARD+PDF",
       J.s "HIGH", J.s stdm.notes]
    | none =>
      [J.s erp.sap_segment, J.s erp.sap_segment_desc, J.s erp.sap_field,
       J.s erp.sap_field_desc, J.s erp.sap_data_type,
       J.s erp.sap_external_length, J.s stdm.x12_segment,
       J.s stdm.x12_element, J.s stdm.description, J.s stdm.mapping_rule,
       J.s "", J.s "", J.s "", J.s "STANDARD", J.s "MEDIUM", J.s stdm.notes]
  | [] =>
    [J.s erp.sap_segment, J.s erp.sap_segment_desc, J.s erp.sap_field,
     J.s erp.sap_field_desc, J.s erp.sap_data_type,
     J.s erp.sap_external_length, J.s "", J.s "", J.s "", J.s "", J.s "",
     J.s "", J.s "", J.s "UNMAPPED", J.s "", J.s ""]

/-- Does the reverse standard lookup miss this field? -/
def noStd (std : String → String → List Std) (erp : Erp) : Bool :=
  (std erp.sap_segment erp.sap_field).isEmpty

/-- Grid row indices (starting at `k`) of the fields with no standard
mapping. -/
def specUnmappedI (std : String → String → List Std) (k : Nat) :
    List Erp → List Nat
  | [] => []
  | e :: rest =>
    if noStd std e then k :: specUnmappedI std (k + 1) rest
    else specUnmappedI std (k + 1) rest

/-- The flaggable-row list emitted by the loop, rows numbered from
`k`. -/
def specFlag (std : String → String → List Std)
    (pdfLookup : List ((String × String) × PdfElem)) (k : Nat) :
    List Erp → List FlagRowInfo
  | [] => []
  | e :: rest =>
    (match std e.sap_segment e.sap_field with
     | stdm :: _ =>
       match dictGet? pdfLookup (stdm.x12_segment, stdm.x12_element) with
       | some pe =>
         if !(formatValues pe.values).isEmpty then
           [⟨k, stdm.mapping_rule, formatValues pe.values, stdm.x12_element⟩]
         else []
       | none => []
     | [] => []) ++ specFlag std pdfLookup (k + 1) rest

/-- The shape the merge and index loops require of one raw field
object: a dict whose `id` value is a string. -/
def wellShapedField (f : J) : Bool :=
  f.isObj &&
    (match f.getD "id" (J.s "") with
     | .s _ => true
     | _ => false)

/-- The shape `extract_all_segments`' merge loop requires of a raw
segment object to run without raising: a dict whose `segment` value is
a string and whose `fields` value is a list of dicts with string
`id`s. -/
def wellShapedSeg (seg : J) : Bool :=
  seg.isObj &&
    (match seg.getD "segment" (J.s "") with
     | .s _ => true
     | _ => false) &&
    (match seg.getD "fields" (J.arr []) with
     | .arr fl => fl.all wellShapedField
     | _ => false)

/-! ### Concrete inputs used by witnesses and counterexamples -/

def exStdA : Std :=
  ⟨"BEG", "BEG01", "Txn purpose", "E1EDK01", "ACTION", "Map 00", "n1"⟩

def exStdB : Std :=
  ⟨"CUR", "CUR02", "Currency", "E1EDK01", "CURCY", "Map USD", "n2"⟩

def exStdFn : String → String → List Std := fun s f =>
  if s = "E1EDK01" && f = "ACTION" then [exStdA]
  else if s = "E1EDK01" && f = "CURCY" then [exStdB] else []

def exErpA : Erp := ⟨"E1EDK01", "Header", "ACTION", "Action code", "CHAR", "3"⟩

def exErpB : Erp := ⟨"E1EDK01", "Header", "CURCY", "Currency", "CHAR", "5"⟩

def exErpC : Erp := ⟨"E1EDK01", "Header", "NOMAP", "No map", "CHAR", "5"⟩

def exPdfL : List ((String × String) × PdfElem) :=
  [(("BEG", "BEG01"), ⟨J.s "purpose", J.s "M", J.arr [J.s "00"]⟩)]

def exPdfSegL : List (String × PdfSeg) := [("BEG", ⟨J.s "Begin", J.s "M"⟩)]

/-- An `AiModel` with no client present. -/
def exAiNone : AiModel := ⟨false, fun _ => none, none⟩

/-- An `AiModel` whose flagging reply flags row 2 — a row the request
never asked about. -/
def exAiFlag2 : AiModel :=
  ⟨true, fun _ => none,
   some (dumps (J.arr [J.obj
     [("row_idx", J.n 2), ("flagged", J.b true),
      ("uncovered_values", J.arr [J.s "X"]),
      ("reason", J.s "missing X")]]))⟩

/-- A raw extracted field whose id is a bare two-character index. -/
def exFieldBare : J :=
  J.obj [("id", J.s "01"), ("description", J.s "Purpose"),
         ("status", J.s "M"), ("values", J.arr [J.s "00"])]

/-- A raw extracted segment carrying `exFieldBare`. -/
def exSegBare : J :=
  J.obj [("segment", J.s "BEG"), ("description", J.s "Begin"),
         ("status", J.s "M"), ("fields", J.arr [exFieldBare])]

/-- A completion backend returning the serialization of `[exSegBare]`
for every chunk. -/
def exOracleBare : Nat → String → Option String :=
  fun _ _ => some (dumps (J.arr [exSegBare]))

/-- A 17-page document text, which `_split_into_chunks` groups into
three chunks of at most 8 pages. -/
def exTxt3 : String :=
  "--- Page 1 ---\np1\n--- Page 2 ---\np2\n--- Page 3 ---\np3\n" ++
  "--- Page 4 ---\np4\n--- Page 5 ---\np5\n--- Page 6 ---\np6\n" ++
  "--- Page 7 ---\np7\n--- Page 8 ---\np8\n--- Page 9 ---\np9\n" ++
  "--- Page 10 ---\npa\n--- Page 11 ---\npb\n--- Page 12 ---\npc\n" ++
  "--- Page 13 ---\npd\n--- Page 14 ---\npe\n--- Page 15 ---\npf\n" ++
  "--- Page 16 ---\npg\n--- Page 17 ---\nph\n"

/-- A second raw segment, with no fields. -/
def exSegRef : J :=
  J.obj [("segment", J.s "REF"), ("description", J.s "Reference"),
         ("status", J.s "O"), ("fields", J.arr [])]

/-- A completion backend whose call for the second chunk raises, while
chunks one and three succeed. -/
def exOracle3 : Nat → String → Option String := fun i _ =>
  if i = 1 then none
  else if i = 0 then some (dumps (J.arr [exSegBare]))
  else some (dumps (J.arr [exSegRef]))

/-- Three complete raw segment objects, serialized and then truncated
inside the third one by the backend (`exTruncResp`). -/
def exSalvO1 : J :=
  J.obj [("segment", J.s "BEG"),
         ("description", J.s "Beginning Segment for PO"),
         ("status", J.s "M"),
         ("fields", J.arr [J.obj [("id", J.s "BEG01"),
           ("description", J.s "Purpose"), ("status", J.s "M"),
           ("values", J.arr [J.s "00"])]])]

def exSalvO2 : J :=
  J.obj [("segment", J.s "CUR"), ("description", J.s "Currency"),
         ("status", J.s "O"),
         ("fields", J.arr [J.obj [("id", J.s "CUR01"),
           ("description", J.s "Entity"), ("status", J.s "M"),
           ("values", J.arr [])]])]

def exSalvO3 : J :=
  J.obj [("segment", J.s "REF"), ("description", J.s "Reference"),
         ("status", J.s "O"),
         ("fields", J.arr [J.obj [("id", J.s "REF01"),
           ("description", J.s "Qualifier"), ("status", J.s "M"),
           ("values", J.arr [J.s "DP"])]])]

/-- The serialization of the three objects cut 25 characters before its
end — part-way through the third object. -/
def exTruncResp : String :=
  String.mk ((dumps (J.arr [exSalvO1, exSalvO2, exSalvO3])).data.take
    ((dumps (J.arr [exSalvO1, exSalvO2, exSalvO3])).data.length - 25))

/-- A cleaned salvage input whose only closing brace sits at
position 101. -/
def exScanC : List Char := '[' :: List.replicate 99 ' ' ++ ['{', '}']

/-! ## General lemmas about the per-field loop -/

section PhaseALemmas

variable (std : String → String → List Std)
variable (pdfL : List ((String × String) × PdfElem))
variable (pdfSegL : List (String × PdfSeg))

theorem stepField_eq (acc : Acc) (erp : Erp) :
    stepField std pdfL pdfSegL acc erp =
      { grid := acc.grid ++ [rowOf std pdfL pdfSegL erp]
        unmapped_fields :=
          acc.unmapped_fields ++ (if noStd std erp then [erp] else [])
        unmapped_indices :=
          acc.unmapped_indices ++
            (if noStd std erp then [acc.grid.length] else [])
        flaggable_rows :=
          acc.flaggable_rows ++ specFlag std pdfL acc.grid.length [erp] } := by
  cases h : std erp.sap_segment erp.sap_field with
  | nil => simp [stepField, rowOf, noStd, specFlag, h]
  | cons stdm rest =>
    cases h2 : dictGet? pdfL (stdm.x12_segment, stdm.x12_element) with
    | none => simp [stepField, rowOf, noStd, specFlag, h, h2]
    | some pe =>
      by_cases hv : (formatValues pe.values).isEmpty <;>
        simp [stepField, rowOf, noStd, specFlag, h, h2, hv]

theorem specFlag_cons (k : Nat) (e : Erp) (rest : List Erp) :
    specFlag std pdfL k (e :: rest) =
      specFlag std pdfL k [e] ++ specFlag std pdfL (k + 1) rest := by
  simp [specFlag]

theorem phaseA_fold :
    ∀ (erps : List Erp) (acc : Acc),
      List.foldl (stepField std pdfL pdfSegL) acc erps =
        { grid := acc.grid ++ erps.map (rowOf std pdfL pdfSegL)
          unmapped_fields := acc.unmapped_fields ++ erps.filter (noStd std)
          unmapped_indices :=
            acc.unmapped_indices ++ specUnmappedI std acc.grid.length erps
          flaggable_rows :=
            acc.flaggable_rows ++ specFlag std pdfL acc.grid.length erps } := by
  intro erps
  induction erps with
  | nil => intro acc; simp [specUnmappedI, specFlag]
  | cons e rest ih =>
    intro acc
    simp only [List.foldl_cons]
    rw [stepField_eq, ih, specFlag_cons]
    by_cases h : noStd std e <;>
      simp [h, specUnmappedI, List.filter_cons, List.append_assoc, specFlag]

theorem phaseA_grid (erps : List Erp) :
    (phaseA std pdfL pdfSegL erps).grid =
      GRID_HEADERS :: erps.map (rowOf std pdfL pdfSegL) := by
  unfold phaseA
  rw [phaseA_fold]
  simp

theorem phaseA_ui (erps : List Erp) :
    (phaseA std pdfL pdfSegL erps).unmapped_indices =
      specUnmappedI std 1 erps := by
  unfold phaseA
  rw [phaseA_fold]
  simp

theorem phaseA_fl (erps : List Erp) :
    (phaseA std pdfL pdfSegL erps).flaggable_rows =
      specFlag std pdfL 1 erps := by
  unfold phaseA
  rw [phaseA_fold]
  simp

theorem specUnmappedI_mem :
    ∀ (l : List Erp) (k x : Nat), x ∈ specUnmappedI std k l →
      ∃ j e, l[j]? = some e ∧ noStd std e ∧ x = k + j := by
  intro l
  induction l with
  | nil => intro k x h; simp [specUnmappedI] at h
  | cons e rest ih =>
    intro k x h
    by_cases he : noStd std e
    · simp [specUnmappedI, he] at h
      rcases h with h | h
      · exact ⟨0, e, by simp, he, by omega⟩
      · obtain ⟨j, e2, hj, hn, hx⟩ := ih (k + 1) x h
        exact ⟨j + 1, e2, by simpa using hj, hn, by omega⟩
    · simp [specUnmappedI, he] at h
      obtain ⟨j, e2, hj, hn, hx⟩ := ih (k + 1) x h
      exact ⟨j + 1, e2, by simpa using hj, hn, by omega⟩

theorem specUnmappedI_ge {l : List Erp} {k x : Nat}
    (h : x ∈ specUnmappedI std k l) : k ≤ x := by
  obtain ⟨j, e, _, _, hx⟩ := specUnmappedI_mem std l k x h
  omega

theorem specUnmappedI_nodup : ∀ (l : List Erp) (k : Nat),
    (specUnmappedI std k l).Nodup := by
  intro l
  induction l with
  | nil => intro k; simp [specUnmappedI]
  | cons e rest ih =>
    intro k
    by_cases he : noStd std e <;> simp [specUnmappedI, he]
    · constructor
      · intro hmem
        have := specUnmappedI_ge std hmem
        omega
      · exact ih (k + 1)
    · exact ih (k + 1)

end PhaseALemmas

/-! ## General lemmas about the AI-match write-back -/

section ApplyLemmas

variable (pdfL : List ((String × String) × PdfElem))
variable (pdfSegL : List (String × PdfSeg))

/-- The grid after one iteration of the write-back loop. -/
theorem applyMatches_cons (grid : List (List J)) (p : Nat × Option J)
    (rest : List (Nat × Option J)) :
    applyMatches pdfL pdfSegL grid (p :: rest) =
      applyMatches pdfL pdfSegL
        (if acceptMatch p.2 then
          match p.2, grid[p.1]? with
          | some m, some row =>
            grid.set p.1 (updateRow pdfL pdfSegL row m)
          | _, _ => grid
        else grid)
        rest := rfl

theorem applyMatches_length :
    ∀ (pairs : List (Nat × Option J)) (grid : List (List J)),
      (applyMatches pdfL pdfSegL grid pairs).length = grid.length := by
  intro pairs
  induction pairs with
  | nil => intro grid; rfl
  | cons p rest ih =>
    intro grid
    rw [applyMatches_cons]
    by_cases ha : acceptMatch p.2 <;> simp only [ha, if_true, if_false]
    · cases hm : p.2 with
      | none => exact ih grid
      | some m =>
        cases hr : grid[p.1]? with
        | none => exact ih grid
        | some row =>
          rw [ih (grid.set p.1 (updateRow pdfL pdfSegL row m))]
          simp
    · exact ih grid

theorem applyMatches_notin :
    ∀ (pairs : List (Nat × Option J)) (grid : List (List J)) (r : Nat),
      (∀ p ∈ pairs, p.1 ≠ r) →
      (applyMatches pdfL pdfSegL grid pairs)[r]? = grid[r]? := by
  intro pairs
  induction pairs with
  | nil => intro grid r _; rfl
  | cons p rest ih =>
    intro grid r hne
    have hp : p.1 ≠ r := hne p (by simp)
    have hrest : ∀ q ∈ rest, q.1 ≠ r := fun q hq => hne q (by simp [hq])
    rw [applyMatches_cons]
    by_cases ha : acceptMatch p.2 <;> simp only [ha, if_true, if_false]
    · cases hm : p.2 with
      | none => exact ih grid r hrest
      | some m =>
        cases hr : grid[p.1]? with
        | none => exact ih grid r hrest
        | some row =>
          rw [ih (grid.set p.1 (updateRow pdfL pdfSegL row m)) r hrest,
            List.getElem?_set_ne hp]
    · exact ih grid r hrest

/-- Splitting a `Nodup` condition on the mapped first components. -/
theorem nodup_fst_head {p : Nat × Option J} {rest : List (Nat × Option J)}
    (hnd : ((p :: rest).map Prod.fst).Nodup) :
    (∀ p2 ∈ rest, p2.1 ≠ p.1) ∧ (rest.map Prod.fst).Nodup := by
  simp only [List.map_cons, List.nodup_cons] at hnd
  refine ⟨?_, hnd.2⟩
  intro p2 hp2 hEq
  exact hnd.1 (List.mem_map.mpr ⟨p2, hp2, hEq⟩)

end ApplyLemmas

/-! ## Zip and row-cell helper lemmas -/

theorem zip_map_fst_isPref :
    ∀ (l1 : List α) (l2 : List β), ((l1.zip l2).map Prod.fst) <+: l1 := by
  intro l1
  induction l1 with
  | nil => intro l2; simp
  | cons a rest ih =>
    intro l2
    cases l2 with
    | nil => simp
    | cons b l2r =>
      obtain ⟨t, ht⟩ := ih l2r
      exact ⟨t, by simp [List.zip_cons_cons, ht]⟩

theorem zip_nodup_fst {l1 : List Nat} {l2 : List α} (h : l1.Nodup) :
    ((l1.zip l2).map Prod.fst).Nodup :=
  h.sublist (zip_map_fst_isPref l1 l2).sublist

section UpdateRowCells

variable (pdfL : List ((String × String) × PdfElem))
variable (pdfSegL : List (String × PdfSeg))

theorem updateRow_get_lt6 {row : List J} (m : J) {c : Nat} (hc : c < 6) :
    (updateRow pdfL pdfSegL row m)[c]? = row[c]? := by
  unfold updateRow
  rw [List.getElem?_set_ne (by omega), List.getElem?_set_ne (by omega),
    List.getElem?_set_ne (by omega), List.getElem?_set_ne (by omega),
    List.getElem?_set_ne (by omega), List.getElem?_set_ne (by omega),
    List.getElem?_set_ne (by omega), List.getElem?_set_ne (by omega),
    List.getElem?_set_ne (by omega), List.getElem?_set_ne (by omega)]

/-- Frame characterization of the write-back: with distinct row
indices, every grid position is either untouched or rewritten once from
an accepted pair. -/
theorem applyMatches_frame :
    ∀ (pairs : List (Nat × Option J)) (grid : List (List J)) (r : Nat),
      (pairs.map Prod.fst).Nodup →
      (applyMatches pdfL pdfSegL grid pairs)[r]? = grid[r]? ∨
        ∃ row m, grid[r]? = some row ∧ (r, some m) ∈ pairs ∧
          acceptMatch (some m) ∧
          (applyMatches pdfL pdfSegL grid pairs)[r]? =
            some (updateRow pdfL pdfSegL row m) := by
  intro pairs
  induction pairs with
  | nil => intro grid r _; left; rfl
  | cons p rest ih =>
    intro grid r hnd
    obtain ⟨hhead, hnd2⟩ := nodup_fst_head hnd
    by_cases hpr : p.1 = r
    · -- the head pair targets row r; the rest never touches r again
      have hnotin : ∀ p2 ∈ rest, p2.1 ≠ r := by
        intro p2 hp2 hEq
        exact hhead p2 hp2 (by rw [hEq, hpr])
      rw [applyMatches_cons]
      by_cases ha : acceptMatch p.2
      · cases hm : p.2 with
        | none => rw [hm] at ha; simp [acceptMatch] at ha
        | some m =>
          rw [hm] at ha
          cases hr : grid[p.1]? with
          | none =>
            left
            simp only [hm, hr, ha, if_true]
            exact applyMatches_notin pdfL pdfSegL rest grid r hnotin
          | some row =>
            right
            have hpe : (r, some m) = p := by
              cases p
              simp only at hpr hm
              rw [hpr, hm]
            refine ⟨row, m, by rw [← hpr]; exact hr,
              by rw [hpe]; exact List.mem_cons_self p rest, ha, ?_⟩
            simp only [hm, hr, ha, if_true]
            rw [applyMatches_notin pdfL pdfSegL rest _ r hnotin, ← hpr,
              List.getElem?_set_self]
            exact (List.getElem?_eq_some_iff.mp hr).1
      · left
        simp only [ha, if_false, Bool.false_eq_true]
        exact applyMatches_notin pdfL pdfSegL rest grid r hnotin
    · -- the head pair targets another row
      rw [applyMatches_cons]
      by_cases ha : acceptMatch p.2
      · cases hm : p.2 with
        | none => rw [hm] at ha; simp [acceptMatch] at ha
        | some m =>
          rw [hm] at ha
          cases hr : grid[p.1]? with
          | none =>
            simp only [hm, hr, ha, if_true]
            rcases ih grid r hnd2 with h | ⟨row, m2, h1, h2, h3, h4⟩
            · left; exact h
            · right; exact ⟨row, m2, h1, by simp [h2], h3, h4⟩
          | some row0 =>
            simp only [hm, hr, ha, if_true]
            have hset : (grid.set p.1 (updateRow pdfL pdfSegL row0 m))[r]? =
                grid[r]? := List.getElem?_set_ne hpr
            rcases ih (grid.set p.1 (updateRow pdfL pdfSegL row0 m)) r hnd2 with
              h | ⟨row, m2, h1, h2, h3, h4⟩
            · left; rw [h, hset]
            · right
              exact ⟨row, m2, by rw [← hset]; exact h1, by simp [h2], h3, h4⟩
      · simp only [ha, if_false, Bool.false_eq_true]
        rcases ih grid r hnd2 with h | ⟨row, m2, h1, h2, h3, h4⟩
        · left; exact h
        · right; exact ⟨row, m2, h1, by simp [h2], h3, h4⟩

end UpdateRowCells

/-! ## Dict lemmas -/

section DictLemmas

variable {α β : Type} [BEq α] [LawfulBEq α]

/-- Membership in an inserted dict comes from the old dict or is the
new pair. -/
theorem dictInsert_mem {d : List (α × β)} {k : α} {v : β} {q : α × β}
    (h : q ∈ dictInsert d k v) : q ∈ d ∨ q = (k, v) := by
  induction d with
  | nil => simp [dictInsert] at h; right; exact h
  | cons p rest ih =>
    by_cases hk : p.1 = k
    · simp only [dictInsert, hk, beq_self_eq_true, if_true] at h
      rcases List.mem_cons.mp h with h | h
      · right; exact h
      · left; exact List.mem_cons_of_mem p h
    · simp only [dictInsert, hk, beq_iff_eq, if_false] at h
      rcases List.mem_cons.mp h with h | h
      · left; simp [h]
      · rcases ih h with h2 | h2
        · left; exact List.mem_cons_of_mem p h2
        · right; exact h2

end DictLemmas

section AnalyzeLemmas

variable (std : String → String → List Std)
variable (pdfL : List ((String × String) × PdfElem))
variable (pdfSegL : List (String × PdfSeg))
variable (ai : AiModel)

theorem phaseA_grid_row {erps : List Erp} {i : Nat} {erp : Erp}
    (hi : erps[i]? = some erp) :
    (phaseA std pdfL pdfSegL erps).grid[i + 1]? =
      some (rowOf std pdfL pdfSegL erp) := by
  rw [phaseA_grid]
  simp [hi]

/-- A field with a standard mapping never appears among the write-back
targets. -/
theorem mapped_row_not_written {erps : List Erp} {i : Nat} {erp : Erp}
    (hi : erps[i]? = some erp) (hstd : ¬noStd std erp)
    {ms : List (Option J)} :
    ∀ p ∈ (phaseA std pdfL pdfSegL erps).unmapped_indices.zip ms,
      p.1 ≠ i + 1 := by
  intro p hp hEq
  have hmem : p.1 ∈ ((phaseA std pdfL pdfSegL erps).unmapped_indices.zip
      ms).map Prod.fst := List.mem_map.mpr ⟨p, hp, rfl⟩
  have hmem2 : p.1 ∈ (phaseA std pdfL pdfSegL erps).unmapped_indices :=
    (zip_map_fst_isPref _ _).sublist.subset hmem
  rw [phaseA_ui] at hmem2
  obtain ⟨j, e2, hj, hn, hx⟩ := specUnmappedI_mem std erps 1 p.1 hmem2
  have hji : j = i := by omega
  subst hji
  rw [hi] at hj
  cases hj
  exact hstd hn

/-- The final grid agrees with the phase-1 grid at a row with a
standard mapping. -/
theorem analyze_grid_mapped {erps : List Erp} {i : Nat} {erp : Erp}
    (hi : erps[i]? = some erp) (hstd : ¬noStd std erp) :
    (analyze std pdfL pdfSegL ai erps).grid[i + 1]? =
      some (rowOf std pdfL pdfSegL erp) := by
  simp only [analyze]
  by_cases hcond :
      !(phaseA std pdfL pdfSegL erps).unmapped_fields.isEmpty && ai.present &&
        !pdfL.isEmpty
  · simp only [hcond, if_true]
    rw [applyMatches_notin pdfL pdfSegL _ _ _
      (mapped_row_not_written std pdfL pdfSegL hi hstd)]
    exact phaseA_grid_row std pdfL pdfSegL hi
  · simp only [hcond, if_false, Bool.false_eq_true]
    exact phaseA_grid_row std pdfL pdfSegL hi

end AnalyzeLemmas

/-! ## Claim C1 -/

/-- **C1.**  For every `ErpField` processed by the reconciliation
engine: if the reverse standard lookup returns at least one mapping and
the constraint index contains an entry for the first mapping's
`(wire_segment, element_id)`, the produced grid row has
resolution source `STANDARD+PDF` (the code's rendering of the spec's
STANDARD+CONSTRAINED tier) and confidence `HIGH`, with the element
description taken from the constraint when it is non-empty (truthy) and
from the standard mapping otherwise; if a mapping exists but no
constraint entry is found, the row has resolution source `STANDARD` and
confidence `MEDIUM`. -/
theorem claim_C1 (std : String → String → List Std)
    (pdfL : List ((String × String) × PdfElem))
    (pdfSegL : List (String × PdfSeg)) (ai : AiModel) (erps : List Erp)
    (i : Nat) (erp : Erp) (stdm : Std) (srest : List Std)
    (hi : erps[i]? = some erp)
    (hstd : std erp.sap_segment erp.sap_field = stdm :: srest) :
    ∃ row, (analyze std pdfL pdfSegL ai erps).grid[i + 1]? = some row ∧
      (∀ pe, dictGet? pdfL (stdm.x12_segment, stdm.x12_element) = some pe →
        row[13]? = some (J.s "STANDARD+PDF") ∧
        row[14]? = some (J.s "HIGH") ∧
        row[8]? = some (if pe.description.truthy then pe.description
          else J.s stdm.description)) ∧
      (dictGet? pdfL (stdm.x12_segment, stdm.x12_element) = none →
        row[13]? = some (J.s "STANDARD") ∧
        row[14]? = some (J.s "MEDIUM")) := by
  have hns : ¬noStd std erp := by simp [noStd, hstd]
  refine ⟨rowOf std pdfL pdfSegL erp,
    analyze_grid_mapped std pdfL pdfSegL ai hi hns, ?_, ?_⟩
  · intro pe hpe
    unfold rowOf
    rw [hstd]
    simp only [hpe]
    refine ⟨rfl, rfl, rfl⟩
  · intro hpe
    unfold rowOf
    rw [hstd]
    simp only [hpe]
    exact ⟨rfl, rfl⟩

/-- **C10.**  The semantic-match write-back step mutates only rows that
were emitted as `UNMAPPED` placeholders and for which an accepted
(non-empty) match was returned, rewriting only columns 6 through 15:
the grid keeps its length, the header row and every row not among the
write-back targets are unchanged, any changed row is an unmapped-index
row overwritten by `updateRow` from an accepted match, and columns 0
through 5 (the SAP/ERP field data) of every row are unchanged. -/
theorem claim_C10 (std : String → String → List Std)
    (pdfL : List ((String × String) × PdfElem))
    (pdfSegL : List (String × PdfSeg)) (ai : AiModel) (erps : List Erp) :
    ((analyze std pdfL pdfSegL ai erps).grid.length =
      (phaseA std pdfL pdfSegL erps).grid.length) ∧
    ((analyze std pdfL pdfSegL ai erps).grid[0]? =
        some GRID_HEADERS) ∧
    (∀ r, r ∉ (phaseA std pdfL pdfSegL erps).unmapped_indices →
      (analyze std pdfL pdfSegL ai erps).grid[r]? =
        (phaseA std pdfL pdfSegL erps).grid[r]?) ∧
    (∀ r, (analyze std pdfL pdfSegL ai erps).grid[r]? ≠
        (phaseA std pdfL pdfSegL erps).grid[r]? →
      ∃ row m, (phaseA std pdfL pdfSegL erps).grid[r]? = some row ∧
        acceptMatch (some m) = true ∧
        r ∈ (phaseA std pdfL pdfSegL erps).unmapped_indices ∧
        (analyze std pdfL pdfSegL ai erps).grid[r]? =
          some (updateRow pdfL pdfSegL row m)) ∧
    (∀ (r : Nat) (row row2 : List J) (c : Nat),
      (phaseA std pdfL pdfSegL erps).grid[r]? = some row →
      (analyze std pdfL pdfSegL ai erps).grid[r]? = some row2 → c < 6 →
      row2[c]? = row[c]?) := by
  have hnd : (((phaseA std pdfL pdfSegL erps).unmapped_indices.zip
      (batchAiMatch ai.matchReplies
        (phaseA std pdfL pdfSegL erps).unmapped_fields)).map
      Prod.fst).Nodup := by
    apply zip_nodup_fst
    rw [phaseA_ui]
    exact specUnmappedI_nodup std erps 1
  have hfstsub : ∀ p ∈ (phaseA std pdfL pdfSegL erps).unmapped_indices.zip
      (batchAiMatch ai.matchReplies
        (phaseA std pdfL pdfSegL erps).unmapped_fields),
      p.1 ∈ (phaseA std pdfL pdfSegL erps).unmapped_indices := by
    intro p hp
    exact (zip_map_fst_isPref _ _).sublist.subset
      (List.mem_map.mpr ⟨p, hp, rfl⟩)
  by_cases hcond : (!(phaseA std pdfL pdfSegL erps).unmapped_fields.isEmpty &&
      ai.present && !pdfL.isEmpty) = true
  · have hgr : (analyze std pdfL pdfSegL ai erps).grid =
        applyMatches pdfL pdfSegL (phaseA std pdfL pdfSegL erps).grid
          ((phaseA std pdfL pdfSegL erps).unmapped_indices.zip
            (batchAiMatch ai.matchReplies
              (phaseA std pdfL pdfSegL erps).unmapped_fields)) := by
      simp only [analyze, hcond, if_true]
    refine ⟨?_, ?_, ?_, ?_, ?_⟩
    · rw [hgr]; exact applyMatches_length pdfL pdfSegL _ _
    · rw [hgr]
      have h0 : ∀ p ∈ (phaseA std pdfL pdfSegL erps).unmapped_indices.zip
          (batchAiMatch ai.matchReplies
            (phaseA std pdfL pdfSegL erps).unmapped_fields),
          p.1 ≠ 0 := by
        intro p hp h0
        have hmem := hfstsub p hp
        rw [phaseA_ui] at hmem
        have hge := specUnmappedI_ge std hmem
        omega
      rw [applyMatches_notin pdfL pdfSegL _ _ _ h0, phaseA_grid]
      simp
    · intro r hr
      rw [hgr]
      apply applyMatches_notin
      intro p hp hEq
      exact hr (by rw [← hEq]; exact hfstsub p hp)
    · intro r hne
      rw [hgr] at hne ⊢
      rcases applyMatches_frame pdfL pdfSegL _ _ r hnd with h | ⟨row, m, h1, h2, h3, h4⟩
      · exact absurd h hne
      · exact ⟨row, m, h1, h3, hfstsub _ h2, h4⟩
    · intro r row row2 c hrow hrow2 hc
      rw [hgr] at hrow2
      rcases applyMatches_frame pdfL pdfSegL _ _ r hnd with h | ⟨row0, m, h1, h2, h3, h4⟩
      · rw [h, hrow] at hrow2
        cases hrow2
        rfl
      · rw [h4] at hrow2
        rw [hrow] at h1
        cases h1
        cases hrow2
        exact updateRow_get_lt6 pdfL pdfSegL m hc
  · have hgr : (analyze std pdfL pdfSegL ai erps).grid =
        (phaseA std pdfL pdfSegL erps).grid := by
      simp only [analyze, hcond, if_false, Bool.false_eq_true]
    refine ⟨by rw [hgr], ?_, fun r _ => by rw [hgr], ?_, ?_⟩
    · rw [hgr, phaseA_grid]; simp
    · intro r hne
      exact absurd (by rw [hgr]) hne
    · intro r row row2 c hrow hrow2 hc
      rw [hgr, hrow] at hrow2
      cases hrow2
      rfl

/-- Witness for C10 at a concrete input: the frame conjuncts applied at
concrete rows of a two-field scenario (row 2 is a write-back target
candidate, row 1 a standard row). -/
theorem claim_C10_witness :
    (analyze exStdFn exPdfL exPdfSegL exAiNone [exErpA, exErpC]).grid[1]? =
      (phaseA exStdFn exPdfL exPdfSegL [exErpA, exErpC]).grid[1]? ∧
    ((rowOf exStdFn exPdfL exPdfSegL exErpA) : List J)[0]? =
      (rowOf exStdFn exPdfL exPdfSegL exErpA)[0]? :=
  ⟨(claim_C10 exStdFn exPdfL exPdfSegL exAiNone [exErpA, exErpC]).2.2.1 1
      (by decide),
   (claim_C10 exStdFn exPdfL exPdfSegL exAiNone [exErpA, exErpC]).2.2.2.2 1
      (rowOf exStdFn exPdfL exPdfSegL exErpA)
      (rowOf exStdFn exPdfL exPdfSegL exErpA) 0 (by decide) (by decide)
      (by decide)⟩

/-! ## Lemmas for the flagging step -/

/-- Provenance through the flag result loop: every produced pair comes
from a qualifying reply item. -/
theorem flagFold_mem :
    ∀ (l : List J) (acc : List (J × J)) (p : J × J),
      p ∈ l.foldl flagStep acc →
      p ∈ acc ∨ ∃ it ∈ l, truthyGet it "flagged" = true ∧
        truthyGet it "reason" = true ∧ it.get? "row_idx" = some p.1 ∧
        it.get? "reason" = some p.2 := by
  intro l
  induction l with
  | nil => intro acc p h; left; exact h
  | cons it rest ih =>
    intro acc p h
    simp only [List.foldl_cons] at h
    rcases ih (flagStep acc it) p h with h2 | ⟨it2, hm, hc⟩
    · unfold flagStep at h2
      by_cases hq : truthyGet it "flagged" && truthyGet it "reason"
      · simp only [hq, if_true] at h2
        cases hr : it.get? "row_idx" with
        | none => rw [hr] at h2; left; exact h2
        | some ridx =>
          cases hs : it.get? "reason" with
          | none => rw [hr, hs] at h2; left; exact h2
          | some reason =>
            rw [hr, hs] at h2
            rcases dictInsert_mem h2 with h3 | h3
            · left; exact h3
            · right
              refine ⟨it, List.mem_cons_self it rest, ?_, ?_, ?_, ?_⟩ <;>
                simp only [Bool.and_eq_true] at hq
              · exact hq.1
              · exact hq.2
              · rw [hr, h3]
              · rw [hs, h3]
      · simp only [hq, if_false, Bool.false_eq_true] at h2
        left; exact h2
    · right; exact ⟨it2, List.mem_cons_of_mem it hm, hc⟩

/-- Provenance through `flagCore`. -/
theorem flagCore_mem (parsed : J) (p : J × J) (h : p ∈ flagCore parsed) :
    ∃ items, parsed = J.arr items ∧
      ∃ it ∈ items, truthyGet it "flagged" = true ∧
        truthyGet it "reason" = true ∧ it.get? "row_idx" = some p.1 ∧
        it.get? "reason" = some p.2 := by
  cases parsed with
  | arr items =>
    refine ⟨items, rfl, ?_⟩
    simp only [flagCore] at h
    by_cases hb : flagItemsBad items
    · rw [if_pos hb] at h; simp at h
    · rw [if_neg hb] at h
      rcases flagFold_mem items [] p h with h2 | h2
      · simp at h2
      · exact h2
  | s x => simp [flagCore] at h
  | n x => simp [flagCore] at h
  | b x => simp [flagCore] at h
  | null => simp [flagCore] at h
  | obj kvs => simp [flagCore] at h

/-- Provenance of flaggable rows: each comes from a field with a
standard mapping, a constraint-index hit, and a non-empty formatted
value set. -/
theorem specFlag_mem (std : String → String → List Std)
    (pdfL : List ((String × String) × PdfElem)) :
    ∀ (l : List Erp) (k : Nat) (fr : FlagRowInfo),
      fr ∈ specFlag std pdfL k l →
      ∃ j e stdm srest pe, l[j]? = some e ∧
        std e.sap_segment e.sap_field = stdm :: srest ∧
        dictGet? pdfL (stdm.x12_segment, stdm.x12_element) = some pe ∧
        (formatValues pe.values).isEmpty = false ∧
        fr = ⟨k + j, stdm.mapping_rule, formatValues pe.values,
          stdm.x12_element⟩ := by
  intro l
  induction l with
  | nil => intro k fr h; simp [specFlag] at h
  | cons e rest ih =>
    intro k fr h
    rw [specFlag_cons] at h
    rcases List.mem_append.mp h with h2 | h2
    · -- from the head singleton
      simp only [specFlag, List.append_nil] at h2
      cases hstd : std e.sap_segment e.sap_field with
      | nil => simp only [hstd] at h2; simp at h2
      | cons stdm srest =>
        cases hpe : dictGet? pdfL (stdm.x12_segment, stdm.x12_element) with
        | none => simp only [hstd, hpe] at h2; simp at h2
        | some pe =>
          by_cases hv : (formatValues pe.values).isEmpty
          · simp only [hstd, hpe, hv, Bool.not_true, Bool.false_eq_true,
              if_false] at h2
            simp at h2
          · simp only [hstd, hpe, hv, Bool.not_false, if_true] at h2
            simp at h2
            refine ⟨0, e, stdm, srest, pe, by simp, by rw [hstd], hpe,
              by simpa using hv, by rw [h2]; simp⟩
    · obtain ⟨j, e2, stdm, srest, pe, hj, hs, hp, hv, hfr⟩ := ih (k + 1) fr h2
      exact ⟨j + 1, e2, stdm, srest, pe, by simpa using hj, hs, hp, hv,
        by rw [hfr]; simp; omega⟩

/-- Provenance through a `dictInsert` fold. -/
theorem foldDictInsert_mem {α β γ : Type} [BEq α] [LawfulBEq α] (g : γ → α × β) :
    ∀ (l : List γ) (acc : List (α × β)) (q : α × β),
      q ∈ l.foldl (fun a x => dictInsert a (g x).1 (g x).2) acc →
      q ∈ acc ∨ ∃ x ∈ l, q = g x := by
  intro l
  induction l with
  | nil => intro acc q h; left; exact h
  | cons x rest ih =>
    intro acc q h
    simp only [List.foldl_cons] at h
    rcases ih _ q h with h2 | ⟨x2, hm, hq⟩
    · rcases dictInsert_mem h2 with h3 | h3
      · left; exact h3
      · right
        exact ⟨x, List.mem_cons_self x rest, by rw [h3]⟩
    · right; exact ⟨x2, List.mem_cons_of_mem x hm, hq⟩

/-- **C3 (counterexample).**  The claim says a flag can only refer to a
row with source STANDARD+PDF and non-empty constraint values,
regardless of the backend reply.  `_flag_value_discrepancies` takes the
`row_idx` of each reply item without validating it against the request:
a reply that flags row 2 produces a flag on row 2 even though row 2 is
a STANDARD row (the only flaggable row was row 1). -/
theorem claim_C3_counterexample :
    (analyze exStdFn exPdfL exPdfSegL exAiFlag2
        [exErpA, exErpB, exErpC]).flags =
      [(J.n 2, J.obj [("col", J.n 9), ("reason", J.s "missing X")])] ∧
    ((analyze exStdFn exPdfL exPdfSegL exAiFlag2
        [exErpA, exErpB, exErpC]).grid[2]?).map (fun row => row[13]?) =
      some (some (J.s "STANDARD")) ∧
    J.s "STANDARD" ≠ J.s "STANDARD+PDF" :=
  ⟨by decide, by decide, by decide⟩

/-- **C3 (amended).**  Flags derive only from reply items whose
`flagged` and `reason` values are truthy, keyed by the item's
`row_idx` taken from the reply **without validation against the grid**;
the request-side flaggable rows are exactly grid rows with resolution
source STANDARD+PDF and a non-empty constraint-value cell; and every
flag of a run is the `{col: 9, reason}` wrap of one entry of the
flagging step's result. -/
theorem claim_C3 :
    (∀ (parsed : J) (p : J × J), p ∈ flagCore parsed →
      ∃ items, parsed = J.arr items ∧
        ∃ it ∈ items, truthyGet it "flagged" = true ∧
          truthyGet it "reason" = true ∧ it.get? "row_idx" = some p.1 ∧
          it.get? "reason" = some p.2) ∧
    (∀ (std : String → String → List Std)
      (pdfL : List ((String × String) × PdfElem))
      (pdfSegL : List (String × PdfSeg)) (erps : List Erp)
      (fr : FlagRowInfo),
      fr ∈ (phaseA std pdfL pdfSegL erps).flaggable_rows →
      ∃ row, (phaseA std pdfL pdfSegL erps).grid[fr.row_idx]? = some row ∧
        row[13]? = some (J.s "STANDARD+PDF") ∧
        row[12]? = some (J.s fr.pdf_values) ∧
        fr.pdf_values.isEmpty = false) ∧
    (∀ (std : String → String → List Std)
      (pdfL : List ((String × String) × PdfElem))
      (pdfSegL : List (String × PdfSeg)) (ai : AiModel) (erps : List Erp)
      (p : J × J), p ∈ (analyze std pdfL pdfSegL ai erps).flags →
      ∃ q ∈ flagValueDiscrepancies
          (phaseA std pdfL pdfSegL erps).flaggable_rows ai.flagReply,
        p = (q.1, J.obj [("col", J.n 9), ("reason", q.2)])) := by
  refine ⟨?_, ?_, ?_⟩
  · intro parsed p hp
    exact flagCore_mem parsed p hp
  · intro std pdfL pdfSegL erps fr hfr
    rw [phaseA_fl] at hfr
    obtain ⟨j, e, stdm, srest, pe, hj, hs, hp, hv, hfr2⟩ :=
      specFlag_mem std pdfL erps 1 fr hfr
    have hrow := phaseA_grid_row std pdfL pdfSegL hj
    have hidx : fr.row_idx = j + 1 := by rw [hfr2]; simp; omega
    refine ⟨rowOf std pdfL pdfSegL e, by rw [hidx]; exact hrow, ?_, ?_, ?_⟩
    · unfold rowOf
      rw [hs]
      simp only [hp]
      rfl
    · unfold rowOf
      rw [hs]
      simp only [hp]
      rw [hfr2]
      rfl
    · rw [hfr2]
      simpa using hv
  · intro std pdfL pdfSegL ai erps p hp
    simp only [analyze] at hp
    by_cases hcond : (!(phaseA std pdfL pdfSegL erps).flaggable_rows.isEmpty &&
        ai.present) = true
    · simp only [hcond, if_true] at hp
      rcases foldDictInsert_mem
          (fun q : J × J => (q.1, J.obj [("col", J.n 9), ("reason", q.2)]))
          _ _ p hp with h | ⟨q, hq, hpq⟩
      · simp at h
      · exact ⟨q, hq, hpq⟩
    · simp only [hcond, Bool.false_eq_true, if_false] at hp
      simp at hp

/-- Witness for C3 at concrete inputs: a qualifying reply item's flag
is traced back to the item; a concrete flaggable row is traced to its
STANDARD+PDF grid row; a concrete pipeline flag is traced to the
flagging result. -/
theorem claim_C3_witness :
    (∃ items,
      (J.arr [J.obj [("row_idx", J.n 7), ("flagged", J.b true),
        ("reason", J.s "r")]]) = J.arr items ∧
      ∃ it ∈ items, truthyGet it "flagged" = true ∧
        truthyGet it "reason" = true ∧
        it.get? "row_idx" = some (J.n 7) ∧
        it.get? "reason" = some (J.s "r")) ∧
    (∃ row,
      (phaseA exStdFn exPdfL exPdfSegL [exErpA]).grid[
        (⟨1, "Map 00", "00", "BEG01"⟩ : FlagRowInfo).row_idx]? = some row ∧
      row[13]? = some (J.s "STANDARD+PDF") ∧
      row[12]? = some (J.s (⟨1, "Map 00", "00", "BEG01"⟩ :
        FlagRowInfo).pdf_values) ∧
      (⟨1, "Map 00", "00", "BEG01"⟩ : FlagRowInfo).pdf_values.isEmpty =
        false) :=
  ⟨claim_C3.1 (J.arr [J.obj [("row_idx", J.n 7), ("flagged", J.b true),
      ("reason", J.s "r")]]) (J.n 7, J.s "r") (by decide),
   claim_C3.2.1 exStdFn exPdfL exPdfSegL [exErpA]
     ⟨1, "Map 00", "00", "BEG01"⟩ (by decide)⟩

/-- Witness for C1 at a concrete input: one field with a standard
mapping whose element is present in the constraint index, checking the
STANDARD+PDF/HIGH outcome, and one field whose element is absent,
checking the STANDARD/MEDIUM outcome. -/
theorem claim_C1_witness :
    (∃ row,
      (analyze exStdFn exPdfL exPdfSegL exAiNone [exErpA, exErpB]).grid[0 + 1]? =
        some row ∧
      (∀ pe, dictGet? exPdfL (exStdA.x12_segment, exStdA.x12_element) = some pe →
        row[13]? = some (J.s "STANDARD+PDF") ∧
        row[14]? = some (J.s "HIGH") ∧
        row[8]? = some (if pe.description.truthy then pe.description
          else J.s exStdA.description)) ∧
      (dictGet? exPdfL (exStdA.x12_segment, exStdA.x12_element) = none →
        row[13]? = some (J.s "STANDARD") ∧
        row[14]? = some (J.s "MEDIUM"))) ∧
    (∃ row,
      (analyze exStdFn exPdfL exPdfSegL exAiNone [exErpA, exErpB]).grid[1 + 1]? =
        some row ∧
      (∀ pe, dictGet? exPdfL (exStdB.x12_segment, exStdB.x12_element) = some pe →
        row[13]? = some (J.s "STANDARD+PDF") ∧
        row[14]? = some (J.s "HIGH") ∧
        row[8]? = some (if pe.description.truthy then pe.description
          else J.s exStdB.description)) ∧
      (dictGet? exPdfL (exStdB.x12_segment, exStdB.x12_element) = none →
        row[13]? = some (J.s "STANDARD") ∧
        row[14]? = some (J.s "MEDIUM"))) :=
  ⟨claim_C1 exStdFn exPdfL exPdfSegL exAiNone [exErpA, exErpB] 0 exErpA
      exStdA [] (by decide) (by decide),
   claim_C1 exStdFn exPdfL exPdfSegL exAiNone [exErpA, exErpB] 1 exErpB
      exStdB [] (by decide) (by decide)⟩

/-- `Except` bind on a success, for rewriting monadic folds. -/
theorem exc_bind_ok {ε α β : Type} (a : α) (f : α → Except ε β) :
    (Except.ok a >>= f) = f a := rfl

/-- `Except` bind on a failure. -/
theorem exc_bind_error {ε α β : Type} (e : ε) (f : α → Except ε β) :
    ((Except.error e : Except ε α) >>= f) = Except.error e := rfl

/-- `Except` pure. -/
theorem exc_pure_eq {ε α : Type} (a : α) :
    (pure a : Except ε α) = Except.ok a := rfl

/-- Inversion of a successful `Except` bind. -/
theorem exc_ok_of_bind {ε α β : Type} {e : Except ε α} {f : α → Except ε β}
    {b : β} (h : (e >>= f) = .ok b) : ∃ a, e = .ok a ∧ f a = .ok b := by
  cases e with
  | error x => rw [exc_bind_error] at h; cases h
  | ok a => exact ⟨a, rfl, h⟩

/-- A list contains itself as a leading substring. -/
theorem strContains_append (n r : List Char) :
    strContains n (n ++ r) = true := by
  cases n with
  | nil => cases r <;> simp [strContains, subIndex]
  | cons c cs =>
    simp [strContains, subIndex, List.isPrefixOf_iff_prefix]

/-- Key-shape invariant of `_build_pdf_index`'s inner field loop:
whenever the loop completes, every key of the resulting lookup has an
element id of length at least 3 or one containing the segment code,
provided every key of the initial lookup does. -/
theorem buildPdfIndex_inner_inv (sc : String) :
    ∀ (fl : List J) (lk0 : List ((String × String) × PdfElem)),
      (∀ p ∈ lk0, 3 ≤ p.1.2.length ∨ strContains p.1.1.data p.1.2.data = true) →
      ∀ lkOut,
        fl.foldlM
          (fun lk field => do
            let idJ ← jGetD field "id" (J.s "")
            let elem_id := pyUpper (pyStripStr (pyStr idJ))
            if elem_id.isEmpty then pure lk
            else do
              let elem_id :=
                if elem_id.length ≤ 2 && !strContains sc.data elem_id.data
                then sc ++ elem_id
                else elem_id
              let fd ← jGetD field "description" (J.s "")
              let fs ← jGetD field "status" (J.s "")
              let fv ← jGetD field "values" (J.arr [])
              pure (dictInsert lk (sc, elem_id) ⟨fd, fs, fv⟩))
          lk0 = .ok lkOut →
      ∀ p ∈ lkOut, 3 ≤ p.1.2.length ∨ strContains p.1.1.data p.1.2.data = true := by
  intro fl
  induction fl with
  | nil =>
    intro lk0 h0 lkOut heq
    cases heq
    exact h0
  | cons fd rest ih =>
    intro lk0 h0 lkOut heq
    rw [List.foldlM_cons] at heq
    obtain ⟨cur, hcur, heq⟩ := exc_ok_of_bind heq
    try simp only [] at heq hcur
    obtain ⟨idJ, h1, hcur⟩ := exc_ok_of_bind hcur
    try simp only [] at hcur
    by_cases hemp : (pyUpper (pyStripStr (pyStr idJ))).isEmpty = true
    · rw [if_pos hemp, exc_pure_eq] at hcur
      cases hcur
      exact ih lk0 h0 lkOut heq
    · rw [if_neg hemp] at hcur
      obtain ⟨fdv, h2, hcur⟩ := exc_ok_of_bind hcur
      try simp only [] at hcur
      obtain ⟨fsv, h3, hcur⟩ := exc_ok_of_bind hcur
      try simp only [] at hcur
      obtain ⟨fvv, h4, hcur⟩ := exc_ok_of_bind hcur
      try simp only [] at hcur
      rw [exc_pure_eq] at hcur
      cases hcur
      refine ih _ ?_ lkOut heq
      intro p hp
      rcases dictInsert_mem hp with hpl | hpk
      · exact h0 p hpl
      · rw [hpk]
        by_cases hc :
            ((pyUpper (pyStripStr (pyStr idJ))).length ≤ 2 &&
              !strContains sc.data
                (pyUpper (pyStripStr (pyStr idJ))).data) = true
        · rw [if_pos hc]
          right
          simpa using strContains_append sc.data
            (pyUpper (pyStripStr (pyStr idJ))).data
        · rw [if_neg hc]
          simp only [Bool.and_eq_true, Bool.not_eq_true', not_and,
            decide_eq_true_eq] at hc
          by_cases hlen : (pyUpper (pyStripStr (pyStr idJ))).length ≤ 2
          · right
            have := hc (by simpa using hlen)
            simpa using this
          · left
            simp only
            omega

set_option maxRecDepth 16384 in
/-- **C8 (counterexample).**  The claim says every element id in the
ConstraintExtractor's **merged output** is normalized to the full
`SEGMENT+INDEX` form.  In the code, `extract_all_segments` merges the
raw field dicts verbatim (it only upper-cases ids for duplicate
detection): a backend reply whose field id is the bare index `"01"`
survives the whole extraction with that bare id. -/
theorem claim_C8_counterexample :
    extractAllSegments (.ok "spec text") exOracleBare = .ok [exSegBare] ∧
    exSegBare.get? "fields" = some (J.arr [exFieldBare]) ∧
    exFieldBare.get? "id" = some (J.s "01") ∧
    ¬3 ≤ "01".length ∧ strContains "BEG".data "01".data = false :=
  ⟨by decide, by decide, by decide, by decide, by decide⟩

/-- **C8 (amended).**  The extractor's merged output keeps the
backend's raw element ids; normalization to `SEGMENT+INDEX` happens
only when `GapAnalyzer._build_pdf_index` builds the constraint index
(prepending the segment code to an id of length at most 2 that does
not contain it): every key of the built index has an element id of
length at least 3 or one containing its segment code. -/
theorem claim_C8 (pdfSegments : List J)
    (lk : List ((String × String) × PdfElem)) (sl : List (String × PdfSeg))
    (h : buildPdfIndex pdfSegments = .ok (lk, sl)) :
    ∀ p ∈ lk, 3 ≤ p.1.2.length ∨ strContains p.1.1.data p.1.2.data = true := by
  suffices haux : ∀ (segs : List J)
      (acc : List ((String × String) × PdfElem) × List (String × PdfSeg)),
      (∀ p ∈ acc.1, 3 ≤ p.1.2.length ∨
        strContains p.1.1.data p.1.2.data = true) →
      ∀ out, segs.foldlM
          (fun acc seg => do
            let segJ ← jGetD seg "segment" (J.s "")
            let segS ← asStr segJ
            let seg_code := pyUpper (pyStripStr segS)
            if seg_code.isEmpty then pure acc
            else do
              let d ← jGetD seg "description" (J.s "")
              let st ← jGetD seg "status" (J.s "")
              let segLookup := dictInsert acc.2 seg_code ⟨d, st⟩
              let fieldsJ ← jGetD seg "fields" (J.arr [])
              let fieldList ← jIter fieldsJ
              let lookup ← fieldList.foldlM
                (fun lk field => do
                  let idJ ← jGetD field "id" (J.s "")
                  let elem_id := pyUpper (pyStripStr (pyStr idJ))
                  if elem_id.isEmpty then pure lk
                  else do
                    let elem_id :=
                      if elem_id.length ≤ 2 &&
                          !strContains seg_code.data elem_id.data
                      then seg_code ++ elem_id
                      else elem_id
                    let fd ← jGetD field "description" (J.s "")
                    let fs ← jGetD field "status" (J.s "")
                    let fv ← jGetD field "values" (J.arr [])
                    pure (dictInsert lk (seg_code, elem_id)
                      (⟨fd, fs, fv⟩ : PdfElem)))
                acc.1
              pure (lookup, segLookup))
          acc = .ok out →
      ∀ p ∈ out.1, 3 ≤ p.1.2.length ∨
        strContains p.1.1.data p.1.2.data = true by
    intro p hp
    unfold buildPdfIndex at h
    exact haux pdfSegments ([], []) (by simp) (lk, sl) h p hp
  intro segs
  induction segs with
  | nil =>
    intro acc h0 out heq
    cases heq
    exact h0
  | cons seg rest ih =>
    intro acc h0 out heq
    rw [List.foldlM_cons] at heq
    obtain ⟨acc1, hstep, heq⟩ := exc_ok_of_bind heq
    try simp only [] at heq hstep
    obtain ⟨segJ, h1, hstep⟩ := exc_ok_of_bind hstep
    try simp only [] at hstep
    obtain ⟨segS, h2, hstep⟩ := exc_ok_of_bind hstep
    try simp only [] at hstep
    by_cases hemp : (pyUpper (pyStripStr segS)).isEmpty = true
    · rw [if_pos hemp, exc_pure_eq] at hstep
      cases hstep
      exact ih acc h0 out heq
    · rw [if_neg hemp] at hstep
      obtain ⟨d, h3, hstep⟩ := exc_ok_of_bind hstep
      try simp only [] at hstep
      obtain ⟨st, h4, hstep⟩ := exc_ok_of_bind hstep
      try simp only [] at hstep
      obtain ⟨fieldsJ, h5, hstep⟩ := exc_ok_of_bind hstep
      try simp only [] at hstep
      obtain ⟨fieldList, h6, hstep⟩ := exc_ok_of_bind hstep
      try simp only [] at hstep
      obtain ⟨lookup, h7, hstep⟩ := exc_ok_of_bind hstep
      try simp only [] at hstep
      rw [exc_pure_eq] at hstep
      cases hstep
      refine ih _ ?_ out heq
      intro p hp
      exact buildPdfIndex_inner_inv (pyUpper (pyStripStr segS))
        fieldList acc.1 h0 lookup h7 p hp

set_option maxRecDepth 16384 in
/-- Witness for C8 at a concrete input: the index built from the
bare-id segment normalizes the key to `("BEG", "BEG01")`, which
satisfies the invariant. -/
theorem claim_C8_witness :
    3 ≤ ("BEG", "BEG01").2.length ∨
      strContains ("BEG", "BEG01").1.data ("BEG", "BEG01").2.data = true :=
  claim_C8 [exSegBare]
    [(("BEG", "BEG01"), ⟨J.s "Purpose", J.s "M", J.arr [J.s "00"]⟩)]
    [("BEG", ⟨J.s "Begin", J.s "M"⟩)] (by decide)
    (("BEG", "BEG01"), ⟨J.s "Purpose", J.s "M", J.arr [J.s "00"]⟩)
    (by decide)

/-! ## Claim C9: per-chunk failure isolation -/

/-- A successful dict lookup locates a member. -/
theorem dictGet?_some_mem {α β : Type} [BEq α] [LawfulBEq α]
    {d : List (α × β)} {k : α} {v : β} (h : dictGet? d k = some v) :
    (k, v) ∈ d := by
  unfold dictGet? at h
  cases hf : d.find? (fun kv => kv.1 == k) with
  | none => rw [hf] at h; cases h
  | some p =>
    rw [hf] at h
    have hp := List.find?_some hf
    have hmem := List.mem_of_find?_eq_some hf
    obtain ⟨a, b⟩ := p
    simp at hp h
    rw [hp, h] at hmem
    exact hmem

/-- A `mapM` over `Except` whose steps all succeed succeeds. -/
theorem exc_mapM_ok {α β : Type} (f : α → Except String β) :
    ∀ l : List α, (∀ x ∈ l, ∃ y, f x = .ok y) →
      ∃ ys, l.mapM f = .ok ys := by
  intro l
  induction l with
  | nil => exact fun _ => ⟨[], rfl⟩
  | cons x xs ih =>
    intro h
    obtain ⟨y, hy⟩ := h x (List.mem_cons_self x xs)
    obtain ⟨ys, hys⟩ := ih (fun z hz => h z (List.mem_cons_of_mem x hz))
    exact ⟨y :: ys, by
      simp only [List.mapM_cons, hy, hys, exc_bind_ok, exc_pure_eq]⟩

/-- Unpacking a well-shaped field object. -/
theorem wellShapedField_spec {f : J} (h : wellShapedField f = true) :
    ∃ kvs x, f = J.obj kvs ∧ (J.obj kvs).getD "id" (J.s "") = J.s x := by
  unfold wellShapedField at h
  cases f with
  | obj kvs =>
    cases hgd : (J.obj kvs).getD "id" (J.s "") <;> rw [hgd] at h <;>
      simp [J.isObj] at h
    case s x => exact ⟨kvs, x, rfl, hgd⟩
  | s x => simp [J.isObj] at h
  | n x => simp [J.isObj] at h
  | b x => simp [J.isObj] at h
  | null => simp [J.isObj] at h
  | arr l => simp [J.isObj] at h

/-- Unpacking a well-shaped segment object. -/
theorem wellShapedSeg_spec {seg : J} (h : wellShapedSeg seg = true) :
    ∃ kvs cs fl, seg = J.obj kvs ∧
      (J.obj kvs).getD "segment" (J.s "") = J.s cs ∧
      (J.obj kvs).getD "fields" (J.arr []) = J.arr fl ∧
      ∀ f ∈ fl, wellShapedField f = true := by
  unfold wellShapedSeg at h
  cases seg with
  | obj kvs =>
    cases hsg : (J.obj kvs).getD "segment" (J.s "") <;> rw [hsg] at h <;>
      simp [J.isObj] at h
    case s cs =>
      cases hfl : (J.obj kvs).getD "fields" (J.arr []) <;> rw [hfl] at h <;>
        simp at h
      case arr fl =>
        exact ⟨kvs, cs, fl, rfl, hsg, hfl, by simpa [List.all_eq_true] using h⟩
  | s x => simp [J.isObj] at h
  | n x => simp [J.isObj] at h
  | b x => simp [J.isObj] at h
  | null => simp [J.isObj] at h
  | arr l => simp [J.isObj] at h

/-- `d.get` on a dict. -/
theorem jGetD_obj (kvs : List (String × J)) (k : String) (d : J) :
    jGetD (J.obj kvs) k d = .ok ((J.obj kvs).getD k d) := rfl

/-- `str(x)` coercion of a string value. -/
theorem asStr_s (x : String) : asStr (J.s x) = .ok x := rfl

/-- Iteration over a list value. -/
theorem jIter_arr (l : List J) : jIter (J.arr l) = .ok l := rfl

/-- The id-collecting map of the merge loop succeeds on well-shaped
fields. -/
theorem mergeIds_ok {fields : List J}
    (h : ∀ f ∈ fields, wellShapedField f = true) :
    ∃ ids, fields.mapM mergeIdOf = Except.ok ids := by
  apply exc_mapM_ok
  intro f hf
  obtain ⟨kvs, x, hfe, hid⟩ := wellShapedField_spec (h f hf)
  subst hfe
  refine ⟨pyUpper x, ?_⟩
  simp only [mergeIdOf, jGetD_obj, exc_bind_ok, hid, asStr_s, exc_pure_eq]

/-- The field-appending fold of the merge loop succeeds on well-shaped
fields and preserves well-shapedness of the accumulated fields. -/
theorem mergeFields_fold_ok :
    ∀ (fl : List J) (p0 : List J × List String),
      (∀ f ∈ fl, wellShapedField f = true) →
      (∀ f ∈ p0.1, wellShapedField f = true) →
      ∃ q, fl.foldlM mergeFieldStep p0 = .ok q ∧
        ∀ f ∈ q.1, wellShapedField f = true := by
  intro fl
  induction fl with
  | nil => exact fun p0 _ h0 => ⟨p0, rfl, h0⟩
  | cons f rest ih =>
    intro p0 hfl h0
    have hf := hfl f (List.mem_cons_self f rest)
    obtain ⟨kvs, x, hfe, hid⟩ := wellShapedField_spec hf
    subst hfe
    rw [List.foldlM_cons]
    simp only [mergeFieldStep, jGetD_obj, exc_bind_ok, hid, asStr_s]
    by_cases hc : (!(pyUpper (pyStripStr x)).isEmpty &&
        !p0.2.contains (pyUpper (pyStripStr x))) = true
    · rw [if_pos hc]
      refine ih (p0.1 ++ [J.obj kvs], p0.2 ++ [pyUpper (pyStripStr x)])
        (fun g hg => hfl g (List.mem_cons_of_mem _ hg)) ?_
      intro g hg
      rcases List.mem_append.mp hg with hg | hg
      · exact h0 g hg
      · rw [List.mem_singleton.mp hg]
        exact hf
    · rw [if_neg hc]
      exact ih p0 (fun g hg => hfl g (List.mem_cons_of_mem _ hg)) h0

/-- The default `MSeg` stores no fields. -/
theorem msegDefault_fields : (default : MSeg).fields = [] := rfl

/-- The tail of one merge step, shared by the first-sight and
already-seen branches: collect the existing ids, fold the new fields
in, and store the updated entry. -/
theorem mergeStep_tail_ok (kvs : List (String × J)) (code : String)
    (fl : List J)
    (hfl : (J.obj kvs).getD "fields" (J.arr []) = J.arr fl)
    (hflw : ∀ f ∈ fl, wellShapedField f = true)
    (acc1 : List (String × MSeg))
    (hacc1w : ∀ kv ∈ acc1, ∀ f ∈ kv.2.fields, wellShapedField f = true) :
    ∃ acc2,
      (do
        let ids0 ← ((dictGet? acc1 code).getD default).fields.mapM mergeIdOf
        let fieldsJ ← jGetD (J.obj kvs) "fields" (J.arr [])
        let fl2 ← jIter fieldsJ
        let upd ← fl2.foldlM mergeFieldStep
          (((dictGet? acc1 code).getD default).fields, ids0)
        pure (dictInsert acc1 code
          { (dictGet? acc1 code).getD default with fields := upd.1 })) =
        Except.ok acc2 ∧
      ∀ kv ∈ acc2, ∀ f ∈ kv.2.fields, wellShapedField f = true := by
  have hentryw : ∀ f ∈ ((dictGet? acc1 code).getD default).fields,
      wellShapedField f = true := by
    cases hdg : dictGet? acc1 code with
    | none =>
      intro f hf
      simp only [Option.getD, msegDefault_fields] at hf
      simp at hf
    | some entry =>
      intro f hf
      simp only [Option.getD] at hf
      exact hacc1w (code, entry) (dictGet?_some_mem hdg) f hf
  obtain ⟨ids0, hids0⟩ := mergeIds_ok hentryw
  simp only [hids0, exc_bind_ok, jGetD_obj, hfl, jIter_arr]
  obtain ⟨q, hq, hqw⟩ := mergeFields_fold_ok fl
    (((dictGet? acc1 code).getD default).fields, ids0) hflw hentryw
  simp only [hq, exc_bind_ok, exc_pure_eq]
  refine ⟨_, rfl, ?_⟩
  intro kv hkv
  rcases dictInsert_mem hkv with hkv | hkv
  · exact hacc1w kv hkv
  · rw [hkv]
    exact hqw

/-- One step of the merge loop succeeds on a well-shaped segment and
preserves well-shapedness of every stored field. -/
theorem mergeStep_ok (seg : J) (acc : List (String × MSeg))
    (hseg : wellShapedSeg seg = true)
    (hacc : ∀ kv ∈ acc, ∀ f ∈ kv.2.fields, wellShapedField f = true) :
    ∃ acc2, mergeStep acc seg = .ok acc2 ∧
      ∀ kv ∈ acc2, ∀ f ∈ kv.2.fields, wellShapedField f = true := by
  obtain ⟨kvs, cs, fl, hse, hsg, hfl, hflw⟩ := wellShapedSeg_spec hseg
  subst hse
  unfold mergeStep
  simp only [jGetD_obj, exc_bind_ok, hsg, asStr_s]
  by_cases hemp : (pyUpper (pyStripStr cs)).isEmpty = true
  · rw [if_pos hemp]
    exact ⟨acc, rfl, hacc⟩
  · rw [if_neg hemp]
    by_cases hany :
        (acc.any fun kv => kv.1 == pyUpper (pyStripStr cs)) = true
    · rw [if_pos hany]
      exact mergeStep_tail_ok kvs (pyUpper (pyStripStr cs)) fl hfl hflw
        acc hacc
    · rw [if_neg hany]
      try simp only [jGetD_obj, exc_bind_ok]
      refine mergeStep_tail_ok kvs (pyUpper (pyStripStr cs)) fl hfl hflw
        (acc ++ [(pyUpper (pyStripStr cs),
          ⟨(J.obj kvs).getD "description" (J.s ""),
           (J.obj kvs).getD "status" (J.s ""), []⟩)]) ?_
      intro kv hkv
      rcases List.mem_append.mp hkv with hkv | hkv
      · exact hacc kv hkv
      · rw [List.mem_singleton.mp hkv]
        intro f hf
        simp at hf

/-- The whole merge loop succeeds when every raw segment is
well-shaped. -/
theorem mergeChunks_ok (chunkResults : List (List J))
    (h : ∀ seg ∈ chunkResults.flatten, wellShapedSeg seg = true) :
    ∃ merged, mergeChunks chunkResults = .ok merged := by
  unfold mergeChunks
  suffices haux : ∀ (l : List J) (acc : List (String × MSeg)),
      (∀ seg ∈ l, wellShapedSeg seg = true) →
      (∀ kv ∈ acc, ∀ f ∈ kv.2.fields, wellShapedField f = true) →
      ∃ m, l.foldlM mergeStep acc = .ok m by
    obtain ⟨m, hm⟩ := haux chunkResults.flatten [] h (by simp)
    refine ⟨m.map (fun kv =>
      J.obj [("segment", J.s kv.1), ("description", kv.2.description),
             ("status", kv.2.status), ("fields", J.arr kv.2.fields)]), ?_⟩
    simp only [hm, exc_bind_ok, exc_pure_eq]
  intro l
  induction l with
  | nil => exact fun acc _ _ => ⟨acc, rfl⟩
  | cons seg rest ih =>
    intro acc hl hacc
    obtain ⟨acc2, hstep, hacc2⟩ :=
      mergeStep_ok seg acc (hl seg (List.mem_cons_self seg rest)) hacc
    obtain ⟨m, hm⟩ := ih acc2
      (fun s hs => hl s (List.mem_cons_of_mem seg hs)) hacc2
    exact ⟨m, by rw [List.foldlM_cons]; simp only [hstep, exc_bind_ok, hm]⟩

/-- A chunk whose backend call raises contributes no segments. -/
theorem chunkSegs_none {oracle : Nat → String → Option String}
    {p : Nat × String} (h : oracle p.1 p.2 = none) :
    chunkSegs oracle p = [] := by
  unfold chunkSegs
  rw [h]

/-- Dropping the failed chunks from the chunk list does not change the
flattened segment stream. -/
theorem chunkSegs_flatten_filter (oracle : Nat → String → Option String) :
    ∀ l : List (Nat × String),
      ((l.filter (fun p => (oracle p.1 p.2).isSome)).map
        (chunkSegs oracle)).flatten =
      (l.map (chunkSegs oracle)).flatten := by
  intro l
  induction l with
  | nil => rfl
  | cons p rest ih =>
    by_cases hp : (oracle p.1 p.2).isSome
    · simp only [List.filter_cons, hp, if_true, List.map_cons,
        List.flatten_cons, ih]
    · have hnone : oracle p.1 p.2 = none := by
        cases ho : oracle p.1 p.2
        · rfl
        · rw [ho] at hp; simp at hp
      simp [List.filter_cons, hp, ih, chunkSegs_none hnone]

/-- The merge depends only on the flattened segment stream. -/
theorem mergeChunks_congr {l l2 : List (List J)}
    (h : l.flatten = l2.flatten) : mergeChunks l = mergeChunks l2 := by
  unfold mergeChunks
  rw [h]

/-- **C9.**  When the backend call for any subset of chunks fails, the
extraction still completes without raising (provided the surviving raw
segments are well-shaped, which is what the merge loop needs to run),
each failed chunk contributes exactly zero segments, and the merged
output equals the merge of the successful chunks' segment lists
alone. -/
theorem claim_C9 (txt : String) (oracle : Nat → String → Option String)
    (hws : ∀ p ∈ (splitIntoChunks txt).enum, ∀ seg ∈ chunkSegs oracle p,
      wellShapedSeg seg = true) :
    (∃ merged, extractAllSegments (.ok txt) oracle = .ok merged) ∧
    (∀ p : Nat × String, oracle p.1 p.2 = none → chunkSegs oracle p = []) ∧
    extractAllSegments (.ok txt) oracle =
      mergeChunks (((splitIntoChunks txt).enum.filter
        (fun p => (oracle p.1 p.2).isSome)).map (chunkSegs oracle)) := by
  refine ⟨?_, fun p hp => chunkSegs_none hp, ?_⟩
  · show ∃ merged,
      mergeChunks ((splitIntoChunks txt).enum.map (chunkSegs oracle)) =
        .ok merged
    apply mergeChunks_ok
    intro seg hseg
    rw [List.mem_flatten] at hseg
    obtain ⟨segs, hsegs, hmem⟩ := hseg
    rw [List.mem_map] at hsegs
    obtain ⟨p, hp, hpe⟩ := hsegs
    exact hws p hp seg (hpe ▸ hmem)
  · show mergeChunks ((splitIntoChunks txt).enum.map (chunkSegs oracle)) = _
    exact (mergeChunks_congr (chunkSegs_flatten_filter oracle
      (splitIntoChunks txt).enum)).symm

set_option maxRecDepth 16384 in
/-- Witness for C9 at a concrete input: a 17-page document split into
three chunks, with the second chunk's backend call failing; the run
completes, the failed chunk contributes nothing, and the merge equals
the merge of chunks one and three alone. -/
theorem claim_C9_witness :
    (∃ merged, extractAllSegments (.ok exTxt3) exOracle3 = .ok merged) ∧
    (∀ p : Nat × String, exOracle3 p.1 p.2 = none →
      chunkSegs exOracle3 p = []) ∧
    extractAllSegments (.ok exTxt3) exOracle3 =
      mergeChunks (((splitIntoChunks exTxt3).enum.filter
        (fun p => (exOracle3 p.1 p.2).isSome)).map (chunkSegs exOracle3)) :=
  claim_C9 exTxt3 exOracle3 (by decide)

/-! ## Claim C5: salvage of truncated arrays -/

/-- What one salvage attempt at position `q` does. -/
theorem tryClose_spec (cleaned : List Char) (q : Nat) (l : List J) :
    tryClose cleaned q = some l ↔
      cleaned.get? q = some '}' ∧
      loadsChars (cleaned.take (q + 1) ++ [']']) = some (J.arr l) := by
  unfold tryClose
  by_cases hg : cleaned.get? q = some '}'
  · rw [if_pos hg]
    have hg2 : cleaned[q]? = some '}' := by simpa using hg
    cases hl : loadsChars (cleaned.take (q + 1) ++ [']']) with
    | none => simp [hg2]
    | some v => cases v <;> simp [hg2]
  · rw [if_neg hg]
    have hg2 : ¬cleaned[q]? = some '}' := by simpa using hg
    simp [hg2]

/-- The salvage scan never looks at positions at or below 100. -/
theorem scanFrom_le100 (cleaned : List Char) (p : Nat) (hp : p ≤ 100) :
    scanFrom cleaned p = none := by
  cases p with
  | zero => rfl
  | succ p =>
    simp only [scanFrom]
    rw [if_pos (by omega : p + 1 ≤ 100)]

/-- The salvage scan returns the attempt at the **largest** position
above 100 whose character is a closing brace and whose brace-prefix,
closed with one bracket, parses as a JSON list. -/
theorem scanFrom_spec (cleaned : List Char) :
    ∀ (p : Nat) (l : List J),
      scanFrom cleaned p = some l ↔
        ∃ q, 100 < q ∧ q ≤ p ∧ tryClose cleaned q = some l ∧
          ∀ r, q < r → r ≤ p → tryClose cleaned r = none := by
  intro p
  induction p with
  | zero =>
    intro l
    constructor
    · intro h; cases h
    · rintro ⟨q, hq, hqp, -, -⟩; omega
  | succ p ih =>
    intro l
    by_cases hle : p + 1 ≤ 100
    · rw [scanFrom_le100 cleaned (p + 1) hle]
      constructor
      · intro h; cases h
      · rintro ⟨q, hq, hqp, -, -⟩; omega
    · simp only [scanFrom]
      rw [if_neg hle]
      cases ht : tryClose cleaned (p + 1) with
      | some l0 =>
        constructor
        · intro h
          cases h
          exact ⟨p + 1, by omega, le_refl _, ht, fun r h1 h2 => by omega⟩
        · rintro ⟨q, hq, hqp, hqc, hnone⟩
          rcases Nat.lt_or_ge q (p + 1) with hlt | hge
          · have := hnone (p + 1) hlt (le_refl _)
            rw [this] at ht
            cases ht
          · have hq1 : q = p + 1 := by omega
            subst hq1
            rw [ht] at hqc
            cases hqc
            rfl
      | none =>
        constructor
        · intro h
          obtain ⟨q, hq, hqp, hqc, hnone⟩ := (ih l).mp h
          refine ⟨q, hq, by omega, hqc, ?_⟩
          intro r h1 h2
          rcases Nat.lt_or_ge r (p + 1) with hlt | hge
          · exact hnone r h1 (by omega)
          · have : r = p + 1 := by omega
            rw [this]
            exact ht
        · rintro ⟨q, hq, hqp, hqc, hnone⟩
          apply (ih l).mpr
          have hqp2 : q ≤ p := by
            rcases Nat.eq_or_lt_of_le hqp with he | hlt
            · exfalso
              rw [he] at hqc
              rw [ht] at hqc
              cases hqc
            · omega
          exact ⟨q, hq, hqp2, hqc, fun r h1 h2 => hnone r h1 (by omega)⟩

/-- When the cleaned text starts with a bracket and the scan succeeds,
the salvage result is the scan's. -/
theorem salvage_scan (resp : List Char) (l : List J)
    (hhead : (cleanAiResponse resp).head? = some '[')
    (hscan : scanFrom (cleanAiResponse resp)
      ((cleanAiResponse resp).length - 1) = some l) :
    salvagePartialJson resp = l := by
  simp only [salvagePartialJson]
  rw [if_pos hhead, hscan]

/-- **C5 (amended).**  Salvage of a truncated array does not truncate
at object boundaries: strategy 1 closes the text right after the
**largest** position above 100 holding a `}` whose prefix parses as a
list once a `]` is appended (positions at or below 100 are never
tried), and the decoder returns that parse.  Because `_clean_ai_response`
first slices the text at the last `]` — which can cut off the final
complete object's closing brace — the result can drop complete leading
objects (see `claim_C5_counterexample`). -/
theorem claim_C5 :
    (∀ (cleaned : List Char) (p : Nat) (l : List J),
      scanFrom cleaned p = some l ↔
        ∃ q, 100 < q ∧ q ≤ p ∧ tryClose cleaned q = some l ∧
          ∀ r, q < r → r ≤ p → tryClose cleaned r = none) ∧
    (∀ (cleaned : List Char) (q : Nat) (l : List J),
      tryClose cleaned q = some l ↔
        cleaned.get? q = some '}' ∧
        loadsChars (cleaned.take (q + 1) ++ [']']) = some (J.arr l)) ∧
    (∀ (cleaned : List Char) (p : Nat), p ≤ 100 →
      scanFrom cleaned p = none) ∧
    (∀ (resp : List Char) (l : List J),
      (cleanAiResponse resp).head? = some '[' →
      scanFrom (cleanAiResponse resp)
        ((cleanAiResponse resp).length - 1) = some l →
      salvagePartialJson resp = l) :=
  ⟨fun cleaned p l => scanFrom_spec cleaned p l,
   fun cleaned q l => tryClose_spec cleaned q l,
   fun cleaned p hp => scanFrom_le100 cleaned p hp,
   fun resp l hh hs => salvage_scan resp l hh hs⟩

set_option maxRecDepth 262144 in
set_option maxHeartbeats 1600000 in
/-- **C5 (counterexample).**  The claim says decode of a serialization
truncated part-way through its final object returns **exactly the
complete leading objects**.  Concretely: three segment objects are
serialized and the text is cut 25 characters before its end — inside
the third object, after the first two are complete (the cut point lies
beyond the serialization of the first two).  The decoder returns only
the first object: the second, complete, object is dropped, because
cleaning slices at the last `]` of the truncated text, removing the
second object's closing brace. -/
theorem claim_C5_counterexample :
    ((dumps (J.arr [exSalvO1, exSalvO2])).data.length <
      exTruncResp.data.length) ∧
    exTruncResp.data.length <
      (dumps (J.arr [exSalvO1, exSalvO2, exSalvO3])).data.length ∧
    loads (dumps (J.arr [exSalvO1, exSalvO2])) =
      some (J.arr [exSalvO1, exSalvO2]) ∧
    parseJsonList exTruncResp = [exSalvO1] ∧
    [exSalvO1] ≠ [exSalvO1, exSalvO2] :=
  ⟨by decide, by decide, by decide, by decide, by decide⟩

/-- Witness for C5 at concrete inputs: a successful scan at position
101 (backward through the iff) and a scan capped by the 100 floor. -/
theorem claim_C5_witness :
    scanFrom exScanC 101 = some [J.obj []] ∧ scanFrom exScanC 100 = none :=
  ⟨(claim_C5.1 exScanC 101 [J.obj []]).mpr
    ⟨101, by decide, by decide, by decide,
     fun r h1 h2 => absurd (Nat.lt_of_lt_of_le h1 h2) (Nat.lt_irrefl 101)⟩,
   claim_C5.2.2.1 exScanC 100 (by decide)⟩

/-! ## Claim C6: round trip of the decoder on serialized values

The development below proves that parsing recovers any serialized
plain value, and that the decoder therefore returns a serialized
array's elements — while a serialized **object** comes back as the
wrapper-key extraction, not the object itself. -/

end Edi
